import Mathlib

/-! Blocking and forking TCP echo servers.

A shallow embedding of `01-echo-io-models/blocking/server_blocking.c` and
`01-echo-io-models/blocking/server_forked.c`.

The programs are sequential C code whose only interaction with the outside
world is through system calls and asynchronous signal handlers.  Each system
call is embedded as "consume the next outcome of a finite script and append an
event to the trace".  A script that is exhausted while the program still wants
to perform a call leaves the program *blocked* in that call: this is how a run
that has not (yet) terminated is represented.  Every outcome of a script also
says whether the termination-signal handler `on_stop` ran before the call
returned, which is how asynchronous signal delivery enters the model: a signal
may be delivered during a blocking call (which then may or may not fail with
`EINTR`) and also between two calls, for instance after the loop condition was
evaluated and before `accept` is entered.

`fork` is embedded by following one process: the scripted return value of
`fork` decides whether the run continues as the supervisor or as the new worker.
The kernel's table of children and `waitpid` are modelled separately, for the
handler `on_sigchld`.
-/

namespace EchoLab

/-! ## Data model -/

/-- One octet of connection data.  The servers never inspect byte values. -/
abbrev Byte := Nat

/-- The value of `errno` that marks an interrupted system call. -/
def EINTR : Nat := 4

/-- The capacity of the echo buffer, `sizeof(buf)` for `char buf[4096]`. -/
def BUFSZ : Nat := 4096

/-- Outcome of `read(cfd, buf, sizeof(buf))`: `ok bs` is a return value
`n = bs.length >= 0` with `bs` stored in `buf[0..n)`; `fail e` is a return value
of `-1` with `errno = e`. -/
inductive ReadRes where
  | ok (bs : List Byte)
  | fail (errno : Nat)
  deriving DecidableEq, Repr

/-- Outcome of `write(cfd, buf + off, n - off)`: `ok m` is a return value
`m >= 0`; `fail e` is a return value of `-1` with `errno = e`. -/
inductive WriteRes where
  | ok (m : Nat)
  | fail (errno : Nat)
  deriving DecidableEq, Repr

/-- A scripted `read`: `sig` tells whether `on_stop` ran before the call
returned. -/
structure ReadOut where
  sig : Bool
  res : ReadRes
  deriving DecidableEq, Repr

/-- A scripted `write`: `sig` tells whether `on_stop` ran before the call
returned. -/
structure WriteOut where
  sig : Bool
  res : WriteRes
  deriving DecidableEq, Repr

/-- The diagnostics the two programs print (`perror` and `fprintf(stderr, ..)`). -/
inductive Msg where
  | built
  | perrorSocket
  | perrorSetsockopt
  | perrorBind
  | perrorListen
  | listening
  | perrorAccept
  | clientConnected
  | perrorFork
  | perrorRead
  | perrorWrite
  | clientDisconnectedFd
  | clientDisconnectedAbruptly
  | clientDisconnected
  | bye
  deriving DecidableEq, Repr

/-- The calls `main` makes before it enters the accept loop. -/
inductive SetupCall where
  | sigactionINT
  | sigactionTERM
  | sigactionCHLD
  | socket
  | setsockopt
  | bind
  | listen
  deriving DecidableEq, Repr

/-- Observable actions of a process, in program order. -/
inductive Ev where
  /-- A read of the global `g_stop`, with the value that was seen. -/
  | stop (v : Bool)
  /-- The call `accept(lfd, ..)` together with its return value and `errno`. -/
  | accept (lfd : Int) (cfd : Int) (errno : Nat)
  /-- The call `read(fd, buf, cap)` and its outcome. -/
  | read (fd : Int) (cap : Nat) (res : ReadRes)
  /-- The call `write(fd, buf + off, len)`; `data` is the content of
  `buf[off .. off+len)` at the time of the call. -/
  | write (fd : Int) (off len : Nat) (data : List Byte) (res : WriteRes)
  | close (fd : Int)
  /-- The call `fork()` and its return value in the process that is followed. -/
  | fork (pid : Int)
  | log (m : Msg)
  /-- One of the start-up calls and its return value. -/
  | setup (c : SetupCall) (ret : Int)
  /-- The call `_exit(code)`. -/
  | exited (code : Nat)
  deriving DecidableEq, Repr

/-- The signal handler `on_stop`: `g_stop = 1`. -/
def on_stop (_g_stop : Bool) : Bool := true

/-- Effect on `g_stop` of a system call during which `on_stop` ran (`sig`) or
did not run. -/
def deliver (sig : Bool) (g_stop : Bool) : Bool :=
  if sig then on_stop g_stop else g_stop

/-! ## The write loop (`while (off < n) { .. }`) -/

/-- How the inner write loop ended. -/
inductive WStatus where
  /-- The loop condition `off < n` became false. -/
  | flushed
  /-- A write failed with an error other than `EINTR` (`goto out` / `goto done`). -/
  | failed
  /-- The script ran out while `off < n`: the process sits in `write`. -/
  | blocked
  deriving DecidableEq, Repr

/-- Final state of the write loop. -/
structure WResult where
  status : WStatus
  off : Nat
  g : Bool
  trace : List Ev
  rest : List WriteOut
  deriving DecidableEq, Repr

/-- The loop `while (off < n) { m = write(cfd, buf + off, n - off); .. }` of both
programs, started with the given `off` and value of `g_stop`. -/
def write_loop (cfd : Int) (buf : List Byte) (n : Nat) :
    Nat → Bool → List WriteOut → WResult
  | off, g, [] =>
    if off < n then ⟨.blocked, off, g, [], []⟩ else ⟨.flushed, off, g, [], []⟩
  | off, g, w :: ws =>
    if off < n then
      let g1 := deliver w.sig g
      let ev := Ev.write cfd off (n - off) ((buf.drop off).take (n - off)) w.res
      match w.res with
      | .fail e =>
        if e = EINTR then
          let r := write_loop cfd buf n off g1 ws
          { r with trace := ev :: r.trace }
        else ⟨.failed, off, g1, [ev, .log .perrorWrite], ws⟩
      | .ok m =>
        let r := write_loop cfd buf n (off + m) g1 ws
        { r with trace := ev :: r.trace }
    else ⟨.flushed, off, g, [], w :: ws⟩

/-! ## The echo handler -/

/-- How a run of the echo handler ended. -/
inductive HStatus where
  /-- The handler reached `close(cfd)` and returned. -/
  | closed
  /-- A script ran out: the process sits in `read` or `write`. -/
  | blocked
  deriving DecidableEq, Repr

/-- Final state of the echo handler. -/
structure HResult where
  status : HStatus
  g : Bool
  buf : List Byte
  trace : List Ev
  restR : List ReadOut
  restW : List WriteOut
  deriving DecidableEq, Repr

/-- Content of the buffer after a `read` stored `bs` at its start. -/
def store (buf bs : List Byte) : List Byte := bs ++ buf.drop bs.length

namespace Forked

/-- The function `handle_client(cfd)` of `server_forked.c`.  `buf` is the (at
first uninitialised) content of the local array and `g` the value of `g_stop`. -/
def handle_client (cfd : Int) :
    List Byte → Bool → List ReadOut → List WriteOut → HResult
  | buf, g, [], ws => ⟨.blocked, g, buf, [], [], ws⟩
  | buf, g, r :: rs, ws =>
    let g1 := deliver r.sig g
    let ev := Ev.read cfd BUFSZ r.res
    match r.res with
    | .ok bs =>
      let n := bs.length
      if n = 0 then
        ⟨.closed, g1, buf, [ev, .log .clientDisconnectedFd, .close cfd], rs, ws⟩
      else
        let buf1 := store buf bs
        let w := write_loop cfd buf1 n 0 g1 ws
        match w.status with
        | .flushed =>
          let h := handle_client cfd buf1 w.g rs w.rest
          { h with trace := ev :: (w.trace ++ h.trace) }
        | .failed => ⟨.closed, w.g, buf1, ev :: (w.trace ++ [.close cfd]), rs, w.rest⟩
        | .blocked => ⟨.blocked, w.g, buf1, ev :: w.trace, rs, w.rest⟩
    | .fail e =>
      if e = EINTR then
        let h := handle_client cfd buf g1 rs ws
        { h with trace := ev :: h.trace }
      else
        ⟨.closed, g1, buf,
          [ev, .log .perrorRead, .log .clientDisconnectedAbruptly, .close cfd], rs, ws⟩

end Forked

namespace Blocking

/-- The inline echo loop of `main` in `server_blocking.c`, from `char buf[4096]`
to the `fprintf` that follows `close(cfd)`. -/
def echo_loop (cfd : Int) :
    List Byte → Bool → List ReadOut → List WriteOut → HResult
  | buf, g, [], ws => ⟨.blocked, g, buf, [], [], ws⟩
  | buf, g, r :: rs, ws =>
    let g1 := deliver r.sig g
    let ev := Ev.read cfd BUFSZ r.res
    match r.res with
    | .ok bs =>
      let n := bs.length
      if n = 0 then
        ⟨.closed, g1, buf, [ev, .close cfd, .log .clientDisconnected], rs, ws⟩
      else
        let buf1 := store buf bs
        let w := write_loop cfd buf1 n 0 g1 ws
        match w.status with
        | .flushed =>
          let h := echo_loop cfd buf1 w.g rs w.rest
          { h with trace := ev :: (w.trace ++ h.trace) }
        | .failed =>
          ⟨.closed, w.g, buf1,
            ev :: (w.trace ++ [.close cfd, .log .clientDisconnected]), rs, w.rest⟩
        | .blocked => ⟨.blocked, w.g, buf1, ev :: w.trace, rs, w.rest⟩
    | .fail e =>
      if e = EINTR then
        let h := echo_loop cfd buf g1 rs ws
        { h with trace := ev :: h.trace }
      else
        ⟨.closed, g1, buf,
          [ev, .log .perrorRead, .close cfd, .log .clientDisconnected], rs, ws⟩

end Blocking

/-! ## The two `main` functions -/

/-- How the accept loop of a process ended. -/
inductive LStatus where
  /-- The loop was left, through its condition or through `break`. -/
  | left
  /-- The process called `_exit(code)` inside the loop (a worker). -/
  | exited (code : Nat)
  /-- A script ran out: the process sits in `accept`, `read` or `write`. -/
  | blocked
  deriving DecidableEq, Repr

/-- Final state of the accept loop. -/
structure LResult where
  status : LStatus
  g : Bool
  trace : List Ev
  deriving DecidableEq, Repr

/-- How a process ended. -/
inductive PStatus where
  /-- The function `main` returned `code`. -/
  | returned (code : Nat)
  /-- The process called `_exit(code)`. -/
  | exited (code : Nat)
  /-- A script ran out: the process sits in a system call. -/
  | blocked
  deriving DecidableEq, Repr

/-- Final state of a process. -/
structure PResult where
  status : PStatus
  g : Bool
  trace : List Ev
  deriving DecidableEq, Repr

/-- Outcomes of the start-up calls of `main`.  `sig` tells whether `on_stop` ran
between `install_signals()` and the first evaluation of the loop condition. -/
structure Startup where
  sig : Bool
  socket : Int
  setsockopt : Int
  bind : Int
  listen : Int
  deriving DecidableEq, Repr

namespace Blocking

/-- What the environment does during one iteration of the accept loop of
`server_blocking.c`. -/
structure Iter where
  /-- Whether `on_stop` ran since the previous read of `g_stop` and before the
  loop condition `!g_stop` is evaluated. -/
  sigTop : Bool
  /-- Whether `on_stop` ran after the loop condition was evaluated and before
  `accept` returned. -/
  sigAcc : Bool
  /-- The return value of `accept`. -/
  cfd : Int
  /-- The value of `errno` after `accept`. -/
  errno : Nat
  /-- The script of the `read` calls on the accepted connection. -/
  reads : List ReadOut
  /-- The script of the `write` calls on the accepted connection. -/
  writes : List WriteOut
  deriving DecidableEq, Repr

/-- The loop `while (!g_stop) { .. }` of `main` in `server_blocking.c`. -/
def accept_loop (lfd : Int) : List Byte → Bool → List Iter → LResult
  | _, g, [] =>
    if g then ⟨.left, g, [.stop true]⟩ else ⟨.blocked, g, [.stop false]⟩
  | buf, g, it :: its =>
    let g0 := deliver it.sigTop g
    if g0 then ⟨.left, g0, [.stop true]⟩
    else
      let g1 := deliver it.sigAcc g0
      let acc := Ev.accept lfd it.cfd it.errno
      if it.cfd < 0 then
        if it.errno = EINTR then
          if g1 then ⟨.left, g1, [.stop false, acc, .stop true]⟩
          else
            let r := accept_loop lfd buf g1 its
            { r with trace := [.stop false, acc, .stop false] ++ r.trace }
        else
          let r := accept_loop lfd buf g1 its
          { r with trace := [.stop false, acc, .log .perrorAccept] ++ r.trace }
      else
        let h := echo_loop it.cfd buf g1 it.reads it.writes
        let pre := [.stop false, acc, .log .clientConnected] ++ h.trace
        match h.status with
        | .closed =>
          let r := accept_loop lfd h.buf h.g its
          { r with trace := pre ++ r.trace }
        | .blocked => ⟨.blocked, h.g, pre⟩

/-- The part of `main` in `server_blocking.c` from the accept loop to
`return 0`. -/
def serve (lfd : Int) (buf : List Byte) (g : Bool) (script : List Iter) : PResult :=
  let r := accept_loop lfd buf g script
  match r.status with
  | .left => ⟨.returned 0, r.g, r.trace ++ [.close lfd, .log .bye]⟩
  | .exited c => ⟨.exited c, r.g, r.trace⟩
  | .blocked => ⟨.blocked, r.g, r.trace⟩

/-- The function `main` of `server_blocking.c` (the port only reaches `htons`
and a diagnostic and is left out). -/
def main (su : Startup) (buf : List Byte) (script : List Iter) : PResult :=
  let sigs : List Ev := [.setup .sigactionINT 0, .setup .sigactionTERM 0]
  if su.socket < 0 then
    ⟨.returned 1, false, sigs ++ [.setup .socket su.socket, .log .perrorSocket]⟩
  else if su.setsockopt < 0 then
    ⟨.returned 1, false, sigs ++ [.setup .socket su.socket,
      .setup .setsockopt su.setsockopt, .log .perrorSetsockopt]⟩
  else if su.bind < 0 then
    ⟨.returned 1, false, sigs ++ [.setup .socket su.socket,
      .setup .setsockopt su.setsockopt, .setup .bind su.bind, .log .perrorBind]⟩
  else if su.listen < 0 then
    ⟨.returned 1, false, sigs ++ [.setup .socket su.socket,
      .setup .setsockopt su.setsockopt, .setup .bind su.bind,
      .setup .listen su.listen, .log .perrorListen]⟩
  else
    let r := serve su.socket buf (deliver su.sig false) script
    { r with trace := sigs ++ [.setup .socket su.socket,
        .setup .setsockopt su.setsockopt, .setup .bind su.bind,
        .setup .listen su.listen, .log .listening] ++ r.trace }

end Blocking

namespace Forked

/-- What the environment does during one iteration of the accept loop of
`server_forked.c`. -/
structure Iter where
  /-- Whether `on_stop` ran since the previous read of `g_stop` and before the
  loop condition `!g_stop` is evaluated. -/
  sigTop : Bool
  /-- Whether `on_stop` ran after the loop condition was evaluated and before
  `accept` returned. -/
  sigAcc : Bool
  /-- The return value of `accept`. -/
  cfd : Int
  /-- The value of `errno` after `accept`. -/
  errno : Nat
  /-- The return value of `fork` in the process that is followed: negative on
  failure, `0` in the new worker, the worker's pid in the supervisor. -/
  pid : Int
  /-- The uninitialised content of the array `buf` of `handle_client`. -/
  stack : List Byte
  /-- The script of the `read` calls on the accepted connection. -/
  reads : List ReadOut
  /-- The script of the `write` calls on the accepted connection. -/
  writes : List WriteOut
  deriving DecidableEq, Repr

/-- The loop `while (!g_stop) { .. }` of `main` in `server_forked.c`, as run by
the process that is followed through every `fork`. -/
def accept_loop (lfd : Int) : Bool → List Iter → LResult
  | g, [] =>
    if g then ⟨.left, g, [.stop true]⟩ else ⟨.blocked, g, [.stop false]⟩
  | g, it :: its =>
    let g0 := deliver it.sigTop g
    if g0 then ⟨.left, g0, [.stop true]⟩
    else
      let g1 := deliver it.sigAcc g0
      let acc := Ev.accept lfd it.cfd it.errno
      if it.cfd < 0 then
        if it.errno = EINTR then
          if g1 then ⟨.left, g1, [.stop false, acc, .stop true]⟩
          else
            let r := accept_loop lfd g1 its
            { r with trace := [.stop false, acc, .stop false] ++ r.trace }
        else
          let r := accept_loop lfd g1 its
          { r with trace := [.stop false, acc, .log .perrorAccept] ++ r.trace }
      else
        let pre : List Ev := [.stop false, acc, .log .clientConnected, .fork it.pid]
        if it.pid < 0 then
          let r := accept_loop lfd g1 its
          { r with trace := pre ++ [.log .perrorFork, .close it.cfd] ++ r.trace }
        else if it.pid = 0 then
          let h := handle_client it.cfd it.stack g1 it.reads it.writes
          match h.status with
          | .closed => ⟨.exited 0, h.g, pre ++ [.close lfd] ++ h.trace ++ [.exited 0]⟩
          | .blocked => ⟨.blocked, h.g, pre ++ [.close lfd] ++ h.trace⟩
        else
          let r := accept_loop lfd g1 its
          { r with trace := pre ++ [.close it.cfd] ++ r.trace }

/-- The part of `main` in `server_forked.c` from the accept loop to
`return 0`. -/
def serve (lfd : Int) (g : Bool) (script : List Iter) : PResult :=
  let r := accept_loop lfd g script
  match r.status with
  | .left => ⟨.returned 0, r.g, r.trace ++ [.close lfd, .log .bye]⟩
  | .exited c => ⟨.exited c, r.g, r.trace⟩
  | .blocked => ⟨.blocked, r.g, r.trace⟩

/-- The function `main` of `server_forked.c` (the port only reaches `htons` and
a diagnostic and is left out). -/
def main (su : Startup) (script : List Iter) : PResult :=
  let sigs : List Ev := [.log .built, .setup .sigactionINT 0,
    .setup .sigactionTERM 0, .setup .sigactionCHLD 0]
  if su.socket < 0 then
    ⟨.returned 1, false, sigs ++ [.setup .socket su.socket, .log .perrorSocket]⟩
  else if su.setsockopt < 0 then
    ⟨.returned 1, false, sigs ++ [.setup .socket su.socket,
      .setup .setsockopt su.setsockopt, .log .perrorSetsockopt]⟩
  else if su.bind < 0 then
    ⟨.returned 1, false, sigs ++ [.setup .socket su.socket,
      .setup .setsockopt su.setsockopt, .setup .bind su.bind, .log .perrorBind]⟩
  else if su.listen < 0 then
    ⟨.returned 1, false, sigs ++ [.setup .socket su.socket,
      .setup .setsockopt su.setsockopt, .setup .bind su.bind,
      .setup .listen su.listen, .log .perrorListen]⟩
  else
    let r := serve su.socket (deliver su.sig false) script
    { r with trace := sigs ++ [.setup .socket su.socket,
        .setup .setsockopt su.setsockopt, .setup .bind su.bind,
        .setup .listen su.listen, .log .listening] ++ r.trace }

end Forked

/-! ## Observations on traces -/

/-- The bytes a trace puts on the wire of connection `fd`: a `write` that
returned `m` transmitted the first `m` bytes it was given. -/
def wire (fd : Int) : List Ev → List Byte
  | [] => []
  | .write fd1 _ _ data (.ok m) :: t =>
    if fd1 = fd then data.take m ++ wire fd t else wire fd t
  | _ :: t => wire fd t

/-- The kernel's contract for `write`: a successful call returns at most the
length it was asked to write. -/
def Ev.within : Ev → Bool
  | .write _ _ len _ (.ok m) => decide (m ≤ len)
  | _ => true

/-- A successful `write` that transmitted at least one byte (or any other
event). -/
def Ev.progress : Ev → Bool
  | .write _ _ _ _ (.ok m) => decide (1 ≤ m)
  | _ => true

/-- Whether the event is a `write` that returned a byte count. -/
def Ev.isOkWrite : Ev → Bool
  | .write _ _ _ _ (.ok _) => true
  | _ => false

/-- Whether the event is a `write` call. -/
def Ev.isWrite : Ev → Bool
  | .write _ _ _ _ _ => true
  | _ => false

/-- Whether the event is a `write` that stays inside `buf[0..n)`: it starts
below `n` and ends exactly at `n` (or the event is no `write` at all). -/
def Ev.inside (n : Nat) : Ev → Bool
  | .write _ off len _ _ => decide (off < n ∧ off + len = n)
  | _ => true

/-- Whether the scripted `write` returns a byte count. -/
def WriteOut.isOk (w : WriteOut) : Bool :=
  match w.res with
  | .ok _ => true
  | .fail _ => false

/-- Whether `ws` is a chunking of a write of `rem` bytes: every call is either
interrupted or transmits part of what is left, and the script ends exactly when
nothing is left. -/
def chunking : Nat → List WriteOut → Bool
  | rem, [] => decide (rem = 0)
  | rem, w :: ws =>
    decide (0 < rem) &&
      match w.res with
      | .ok m => decide (m ≤ rem) && chunking (rem - m) ws
      | .fail e => decide (e = EINTR) && chunking rem ws

/-- A `read` that delivers between one and `BUFSZ` bytes, or is interrupted. -/
def ReadOut.benign (r : ReadOut) : Bool :=
  match r.res with
  | .ok bs => decide (0 < bs.length ∧ bs.length ≤ BUFSZ)
  | .fail e => decide (e = EINTR)

/-- The byte chunks a read script delivers, in order. -/
def payload (rs : List ReadOut) : List (List Byte) :=
  rs.filterMap fun r =>
    match r.res with
    | .ok bs => some bs
    | .fail _ => none

/-- Whether the event is a `close`. -/
def Ev.isClose : Ev → Bool
  | .close _ => true
  | _ => false

/-- Whether the event is a diagnostic. -/
def Ev.isLog : Ev → Bool
  | .log _ => true
  | _ => false

/-- Whether the event ends the echo loop: a `read` that returned `0`, or a
`read` or `write` that failed with an error other than `EINTR`. -/
def Ev.terminal : Ev → Bool
  | .read _ _ (.ok bs) => decide (bs.length = 0)
  | .read _ _ (.fail e) => decide (e ≠ EINTR)
  | .write _ _ _ _ (.fail e) => decide (e ≠ EINTR)
  | _ => false

/-- An event that neither closes a descriptor nor ends the echo loop. -/
def Ev.plain (e : Ev) : Bool := !e.isClose && !e.terminal

/-- Whether the event belongs to the accept loop rather than to the service of
one connection: a read of `g_stop`, `accept`, `fork`, a start-up call or
`_exit`. -/
def Ev.loopOnly : Ev → Bool
  | .stop _ => true
  | .accept _ _ _ => true
  | .fork _ => true
  | .setup _ _ => true
  | .exited _ => true
  | _ => false

/-- The events of a trace up to and including the first `fork` that returned
`0`: what the process did as the supervisor. -/
def supervisorPart : List Ev → List Ev
  | [] => []
  | .fork pid :: t => if pid = 0 then [.fork pid] else .fork pid :: supervisorPart t
  | e :: t => e :: supervisorPart t

/-- The events of a trace after the first `fork` that returned `0`: what the
process did as a worker. -/
def workerPart : List Ev → List Ev
  | [] => []
  | .fork pid :: t => if pid = 0 then t else workerPart t
  | _ :: t => workerPart t

/-- Whether the event is a call of `accept`. -/
def Ev.isAccept : Ev → Bool
  | .accept _ _ _ => true
  | _ => false

/-- Whether every `accept` that failed with an error other than `EINTR` is
followed, later in the trace, by another call of `accept`. -/
def failedAcceptsRetried : List Ev → Bool
  | [] => true
  | .accept _ cfd errno :: t =>
    (!(decide (cfd < 0) && decide (errno ≠ EINTR)) || t.any Ev.isAccept) &&
      failedAcceptsRetried t
  | _ :: t => failedAcceptsRetried t

/-- Whether the event is a read of `g_stop`. -/
def Ev.isStop : Ev → Bool
  | .stop _ => true
  | _ => false

/-- Whether the event is a `read` or a `write`. -/
def Ev.isTransfer : Ev → Bool
  | .read _ _ _ => true
  | .write _ _ _ _ _ => true
  | _ => false

/-- Whether the event is a blocking call that returned because it was
interrupted. -/
def Ev.isInterrupted : Ev → Bool
  | .accept _ cfd e => decide (cfd < 0 ∧ e = EINTR)
  | .read _ _ (.fail e) => decide (e = EINTR)
  | .write _ _ _ _ (.fail e) => decide (e = EINTR)
  | _ => false

/-- Whether every read of `g_stop` in the trace comes immediately after a
blocking call that returned because it was interrupted; `prev` is the event
before the trace, if any. -/
def stopsFollowInterrupts : Option Ev → List Ev → Bool
  | _, [] => true
  | prev, e :: t =>
    (!e.isStop ||
      match prev with
      | some p => p.isInterrupted
      | none => false) &&
    stopsFollowInterrupts (some e) t

/-- Whether `prev` can come immediately before the evaluation of the loop
condition `!g_stop`: nothing at all (loop entry), the check after an interrupted
`accept` that found the flag unset, the diagnostic of a failed `accept`, the
`close` of a connection, or the diagnostic that ends a served connection. -/
def endsIteration : Option Ev → Bool
  | none => true
  | some (.stop false) => true
  | some (.log .perrorAccept) => true
  | some (.close _) => true
  | some (.log .clientDisconnected) => true
  | _ => false

/-- Whether a read of `g_stop` that saw `v`, with `prev` immediately before it
and `next` immediately after it, is one of the two reads of the accept loop:
the check `if (g_stop) break;` after an interrupted `accept` (followed by
`close(lfd)` when set, by the loop condition when unset), or the loop condition
(followed by `close(lfd)` when set, by a call of `accept` when unset; no event
follows when the process sits in `accept`). -/
def stopSite (lfd : Int) (prev : Option Ev) (v : Bool) (next : Option Ev) : Bool :=
  match prev with
  | some (.accept _ cfd e) =>
    decide (cfd < 0 ∧ e = EINTR) &&
      match v, next with
      | true, some (.close l) => decide (l = lfd)
      | false, some (.stop _) => true
      | _, _ => false
  | _ =>
    endsIteration prev &&
      match v, next with
      | true, some (.close l) => decide (l = lfd)
      | false, some (.accept l _ _) => decide (l = lfd)
      | false, none => true
      | _, _ => false

/-- Whether every read of `g_stop` in the trace is at one of the two sites of
`stopSite`; `prev` is the event before the trace, if any. -/
def flagDiscipline (lfd : Int) : Option Ev → List Ev → Bool
  | _, [] => true
  | prev, e :: t =>
    (match e with
      | .stop v => stopSite lfd prev v t.head?
      | _ => true) &&
    flagDiscipline lfd (some e) t

/-! ## Workers and their reaping -/

/-- A worker as the kernel keeps it for the supervisor: its pid and whether it
has terminated without having been waited for. -/
structure Child where
  pid : Nat
  zombie : Bool
  deriving DecidableEq, Repr

/-- The children of the supervisor. -/
abbrev ProcTable := List Child

/-- The value of `errno` when there is no child to wait for. -/
def ECHILD : Nat := 10

/-- Remove the first terminated child from the table and give its pid. -/
def reap : ProcTable → Option (Nat × ProcTable)
  | [] => none
  | c :: t =>
    if c.zombie then some (c.pid, t)
    else
      match reap t with
      | none => none
      | some (p, t1) => some (p, c :: t1)

/-- The call `waitpid(-1, NULL, options)`, with `wnohang` telling whether
`WNOHANG` is among the options: a terminated child is reaped and its pid
returned; without children the call returns `-1`; with running children only it
returns `0` under `WNOHANG` and otherwise puts the caller to sleep (`none`). -/
def waitpid_any (wnohang : Bool) (t : ProcTable) : Option (Int × ProcTable) :=
  match reap t with
  | some (p, t1) => some ((p : Int), t1)
  | none =>
    if t.isEmpty then some (-1, t)
    else if wnohang then some (0, t)
    else none

/-- The return value of the call of `waitpid` that ends the loop of `on_sigchld`:
`-1` when no running worker is left, `0` otherwise. -/
def lastRet (t : ProcTable) : Int :=
  if (t.filter fun c => !c.zombie).isEmpty then -1 else 0

/-- Final state of a run of `on_sigchld`. -/
structure SResult where
  table : ProcTable
  /-- The return values of the calls of `waitpid`, in order. -/
  rets : List Int
  /-- Whether a call of `waitpid` put the handler to sleep. -/
  slept : Bool
  deriving DecidableEq, Repr

/-- The loop `while (waitpid(-1, NULL, WNOHANG) > 0) {}` of `on_sigchld`, run for
at most `fuel` calls of `waitpid`. -/
def on_sigchld_loop : Nat → ProcTable → Option SResult
  | 0, _ => none
  | fuel + 1, t =>
    match waitpid_any true t with
    | none => some ⟨t, [], true⟩
    | some (r, t1) =>
      if r > 0 then
        match on_sigchld_loop fuel t1 with
        | none => none
        | some s => some { s with rets := r :: s.rets }
      else some ⟨t1, [r], false⟩

/-- The signal handler `on_sigchld` of `server_forked.c`; one call of `waitpid`
per child and one more always suffice. -/
def on_sigchld (t : ProcTable) : Option SResult :=
  on_sigchld_loop (t.length + 1) t

/-- What happens to the workers of the supervisor. -/
inductive PEv where
  /-- The call `fork` created the worker `pid`. -/
  | spawn (pid : Nat)
  /-- The worker `pid` terminated. -/
  | terminate (pid : Nat)
  /-- The handler `on_sigchld` ran. -/
  | sigchld
  deriving DecidableEq, Repr

/-- Effect of one event on the table of workers. -/
def stepProc (t : ProcTable) : PEv → Option ProcTable
  | .spawn p => some (t ++ [⟨p, false⟩])
  | .terminate p => some (t.map fun c => if c.pid = p then { c with zombie := true } else c)
  | .sigchld =>
    match on_sigchld t with
    | none => none
    | some s => some s.table

/-- Effect of a sequence of events on the table of workers. -/
def runProc : ProcTable → List PEv → Option ProcTable
  | t, [] => some t
  | t, e :: es =>
    match stepProc t e with
    | none => none
    | some t1 => runProc t1 es

/-- Whether the event creates a worker with a pid that is not positive. -/
def PEv.badSpawn : PEv → Bool
  | .spawn p => decide (p = 0)
  | _ => false

/-! ## Properties of the write loop -/

theorem store_take (old bs : List Byte) : (store old bs).take bs.length = bs := by
  simp [store]

theorem store_take_le (old bs : List Byte) (k : Nat) (h : k ≤ bs.length) :
    (store old bs).take k = bs.take k := by
  unfold store
  rw [List.take_append_of_le_length h]

theorem store_drop_take (old bs : List Byte) (off : Nat) (h : off ≤ bs.length) :
    ((store old bs).drop off).take (bs.length - off) = bs.drop off := by
  unfold store
  rw [List.drop_append_of_le_length h, List.take_append_of_le_length (by simp)]
  simp

theorem write_loop_nil (cfd : Int) (buf : List Byte) (n off : Nat) (g : Bool) :
    write_loop cfd buf n off g [] =
      if off < n then ⟨.blocked, off, g, [], []⟩ else ⟨.flushed, off, g, [], []⟩ := by
  simp [write_loop]

theorem write_loop_done (cfd : Int) (buf : List Byte) (n off : Nat) (g : Bool)
    (ws : List WriteOut) (h : ¬ off < n) :
    write_loop cfd buf n off g ws = ⟨.flushed, off, g, [], ws⟩ := by
  cases ws <;> simp [write_loop, h]

theorem write_loop_ok (cfd : Int) (buf : List Byte) (n off : Nat) (g : Bool)
    (w : WriteOut) (ws : List WriteOut) (m : Nat) (h : off < n) (hw : w.res = .ok m) :
    write_loop cfd buf n off g (w :: ws) =
      { write_loop cfd buf n (off + m) (deliver w.sig g) ws with
        trace := Ev.write cfd off (n - off) ((buf.drop off).take (n - off)) (.ok m) ::
          (write_loop cfd buf n (off + m) (deliver w.sig g) ws).trace } := by
  simp [write_loop, h, hw]

theorem write_loop_eintr (cfd : Int) (buf : List Byte) (n off : Nat) (g : Bool)
    (w : WriteOut) (ws : List WriteOut) (h : off < n) (hw : w.res = .fail EINTR) :
    write_loop cfd buf n off g (w :: ws) =
      { write_loop cfd buf n off (deliver w.sig g) ws with
        trace := Ev.write cfd off (n - off) ((buf.drop off).take (n - off)) (.fail EINTR) ::
          (write_loop cfd buf n off (deliver w.sig g) ws).trace } := by
  simp [write_loop, h, hw]

theorem write_loop_err (cfd : Int) (buf : List Byte) (n off : Nat) (g : Bool)
    (w : WriteOut) (ws : List WriteOut) (e : Nat) (h : off < n) (hw : w.res = .fail e)
    (he : e ≠ EINTR) :
    write_loop cfd buf n off g (w :: ws) =
      ⟨.failed, off, deliver w.sig g,
        [Ev.write cfd off (n - off) ((buf.drop off).take (n - off)) (.fail e),
          .log .perrorWrite], ws⟩ := by
  simp [write_loop, h, hw, he]

/-- Under the kernel's contract the offset never passes `n`, it is `n` exactly
when the loop is left through its condition, and the bytes put on the wire are
`buf[off .. off')` for the initial offset `off` and the final offset `off'`. -/
theorem write_loop_inv (cfd : Int) (buf : List Byte) (n : Nat) :
    ∀ (ws : List WriteOut) (off : Nat) (g : Bool), off ≤ n →
      (∀ e ∈ (write_loop cfd buf n off g ws).trace, e.within = true) →
      off ≤ (write_loop cfd buf n off g ws).off ∧
      (write_loop cfd buf n off g ws).off ≤ n ∧
      ((write_loop cfd buf n off g ws).status = .flushed →
        (write_loop cfd buf n off g ws).off = n) ∧
      ((write_loop cfd buf n off g ws).status ≠ .flushed →
        (write_loop cfd buf n off g ws).off < n) ∧
      wire cfd (write_loop cfd buf n off g ws).trace =
        (buf.drop off).take ((write_loop cfd buf n off g ws).off - off) := by
  intro ws
  induction ws with
  | nil =>
    intro off g hle _
    rw [write_loop_nil]
    by_cases h : off < n
    · simp [h, wire]; omega
    · simp [h, wire]; omega
  | cons w ws ih =>
    intro off g hle hin
    by_cases h : off < n
    · rcases hw : w.res with m | e
      · rw [write_loop_ok cfd buf n off g w ws m h hw] at hin ⊢
        simp only [List.mem_cons, forall_eq_or_imp, Ev.within, decide_eq_true_eq] at hin
        obtain ⟨hm, hin⟩ := hin
        have := ih (off + m) (deliver w.sig g) (by omega) hin
        obtain ⟨h1, h2, h3, h4, h5⟩ := this
        refine ⟨by simp only; omega, h2, h3, h4, ?_⟩
        simp only [wire, if_true, h5]
        rw [List.take_take, Nat.min_eq_left hm]
        have e1 : (write_loop cfd buf n (off + m) (deliver w.sig g) ws).off - off =
            m + ((write_loop cfd buf n (off + m) (deliver w.sig g) ws).off - (off + m)) := by
          omega
        rw [e1, List.take_add, List.drop_drop]
      · by_cases he : e = EINTR
        · subst he
          rw [write_loop_eintr cfd buf n off g w ws h hw] at hin ⊢
          simp only [List.mem_cons, forall_eq_or_imp, Ev.within] at hin
          have := ih off (deliver w.sig g) hle hin.2
          obtain ⟨h1, h2, h3, h4, h5⟩ := this
          exact ⟨h1, h2, h3, h4, by simp only [wire, h5]⟩
        · rw [write_loop_err cfd buf n off g w ws e h hw he]
          simp [wire, h]; omega
    · rw [write_loop_done cfd buf n off g (w :: ws) h]
      simp [wire]; omega

theorem write_loop_head (cfd : Int) (buf : List Byte) (n off : Nat) (g : Bool)
    (w : WriteOut) (ws : List WriteOut) (h : off < n) :
    (write_loop cfd buf n off g (w :: ws)).trace.head? =
      some (Ev.write cfd off (n - off) ((buf.drop off).take (n - off)) w.res) := by
  rcases hw : w.res with m | e
  · rw [write_loop_ok cfd buf n off g w ws m h hw]; rfl
  · by_cases he : e = EINTR
    · subst he
      rw [write_loop_eintr cfd buf n off g w ws h hw]; rfl
    · rw [write_loop_err cfd buf n off g w ws e h hw he]; rfl

/-- With writes that respect the kernel's contract and make progress, every
successful write advances the offset, every write stays inside `buf[0..n)`, and
a blocked loop has used up its whole script. -/
theorem write_loop_count (cfd : Int) (buf : List Byte) (n : Nat) :
    ∀ (ws : List WriteOut) (off : Nat) (g : Bool), off ≤ n →
      (∀ e ∈ (write_loop cfd buf n off g ws).trace,
        e.within = true ∧ e.progress = true) →
      (write_loop cfd buf n off g ws).trace.countP Ev.isOkWrite + off ≤
        (write_loop cfd buf n off g ws).off ∧
      (∀ e ∈ (write_loop cfd buf n off g ws).trace, e.inside n = true) ∧
      ((write_loop cfd buf n off g ws).status = .blocked →
        (write_loop cfd buf n off g ws).rest = [] ∧
        ws.countP WriteOut.isOk =
          (write_loop cfd buf n off g ws).trace.countP Ev.isOkWrite) := by
  intro ws
  induction ws with
  | nil =>
    intro off g _ _
    rw [write_loop_nil]
    by_cases h : off < n <;> simp [h]
  | cons w ws ih =>
    intro off g hle hin
    by_cases h : off < n
    · rcases hw : w.res with m | e
      · rw [write_loop_ok cfd buf n off g w ws m h hw] at hin ⊢
        simp only [List.mem_cons, forall_eq_or_imp, Ev.within, Ev.progress,
          decide_eq_true_eq] at hin
        obtain ⟨⟨hm, hp⟩, hin⟩ := hin
        obtain ⟨h1, h2, h3⟩ := ih (off + m) (deliver w.sig g) (by omega) hin
        refine ⟨?_, ?_, ?_⟩
        · simp only [List.countP_cons, Ev.isOkWrite, if_true]; omega
        · intro e he
          simp only [List.mem_cons] at he
          rcases he with rfl | he
          · simp only [Ev.inside, decide_eq_true_eq]; omega
          · exact h2 e he
        · intro hb
          obtain ⟨h4, h5⟩ := h3 hb
          refine ⟨h4, ?_⟩
          simp only [List.countP_cons, Ev.isOkWrite, WriteOut.isOk, hw, if_true, h5]
      · by_cases he : e = EINTR
        · subst he
          rw [write_loop_eintr cfd buf n off g w ws h hw] at hin ⊢
          simp only [List.mem_cons, forall_eq_or_imp] at hin
          obtain ⟨h1, h2, h3⟩ := ih off (deliver w.sig g) hle hin.2
          refine ⟨?_, ?_, ?_⟩
          · simpa [List.countP_cons, Ev.isOkWrite] using h1
          · intro e he
            simp only [List.mem_cons] at he
            rcases he with rfl | he
            · simp only [Ev.inside, decide_eq_true_eq]; omega
            · exact h2 e he
          · intro hb
            obtain ⟨h4, h5⟩ := h3 hb
            refine ⟨h4, ?_⟩
            simp [List.countP_cons, Ev.isOkWrite, WriteOut.isOk, hw, h5]
        · rw [write_loop_err cfd buf n off g w ws e h hw he]
          simp [List.countP_cons, Ev.isOkWrite, Ev.inside]
          omega
    · rw [write_loop_done cfd buf n off g (w :: ws) h]
      simp

/-- A successful write of zero bytes leaves the loop where it was: the same
write is issued again, as often as the kernel answers `0`. -/
theorem write_loop_zero (cfd : Int) (buf : List Byte) (n off : Nat) (h : off < n)
    (g : Bool) :
    ∀ k : Nat, write_loop cfd buf n off g (List.replicate k ⟨false, .ok 0⟩) =
      ⟨.blocked, off, g,
        List.replicate k (Ev.write cfd off (n - off) ((buf.drop off).take (n - off)) (.ok 0)),
        []⟩ := by
  intro k
  induction k with
  | zero => simp [write_loop, h]
  | succ k ih =>
    rw [List.replicate_succ, write_loop_ok cfd buf n off g _ _ 0 h rfl]
    simp only [Nat.add_zero, deliver, Bool.false_eq_true, if_false, ih, List.replicate_succ]

/-- A chunking of the `n - off` bytes that are left flushes the buffer: the loop
ends through its condition, leaves the rest of the script untouched and has
put exactly `buf[off..n)` on the wire. -/
theorem write_loop_chunking (cfd : Int) (buf : List Byte) (n : Nat) :
    ∀ (ws : List WriteOut) (more : List WriteOut) (off : Nat) (g : Bool), off ≤ n →
      chunking (n - off) ws = true →
      (write_loop cfd buf n off g (ws ++ more)).status = .flushed ∧
      (write_loop cfd buf n off g (ws ++ more)).rest = more ∧
      wire cfd (write_loop cfd buf n off g (ws ++ more)).trace =
        (buf.drop off).take (n - off) := by
  intro ws
  induction ws with
  | nil =>
    intro more off g hle hc
    simp only [chunking, decide_eq_true_eq] at hc
    rw [List.nil_append, write_loop_done cfd buf n off g more (by omega)]
    simp [wire, hc]
  | cons w ws ih =>
    intro more off g hle hc
    simp only [chunking, Bool.and_eq_true, decide_eq_true_eq] at hc
    obtain ⟨hpos, hc⟩ := hc
    have h : off < n := by omega
    rcases hw : w.res with m | e
    · rw [hw] at hc
      simp only [Bool.and_eq_true, decide_eq_true_eq] at hc
      obtain ⟨hm, hc⟩ := hc
      rw [List.cons_append, write_loop_ok cfd buf n off g w _ m h hw]
      have e1 : n - off - m = n - (off + m) := by omega
      rw [e1] at hc
      obtain ⟨h1, h2, h3⟩ := ih more (off + m) (deliver w.sig g) (by omega) hc
      refine ⟨h1, h2, ?_⟩
      simp only [wire, if_true, h3]
      rw [List.take_take, Nat.min_eq_left hm]
      have e2 : n - off = m + (n - (off + m)) := by omega
      rw [e2, List.take_add, List.drop_drop]
    · rw [hw] at hc
      simp only [Bool.and_eq_true, decide_eq_true_eq] at hc
      obtain ⟨he, hc⟩ := hc
      subst he
      rw [List.cons_append, write_loop_eintr cfd buf n off g w _ h hw]
      obtain ⟨h1, h2, h3⟩ := ih more off (deliver w.sig g) hle hc
      exact ⟨h1, h2, by simp only [wire, h3]⟩

/-! ## Step equations of the two echo handlers -/

namespace Forked

theorem handle_client_eof (cfd : Int) (buf : List Byte) (g : Bool) (r : ReadOut)
    (rs : List ReadOut) (ws : List WriteOut) (hr : r.res = .ok []) :
    handle_client cfd buf g (r :: rs) ws =
      ⟨.closed, deliver r.sig g, buf,
        [.read cfd BUFSZ (.ok []), .log .clientDisconnectedFd, .close cfd], rs, ws⟩ := by
  simp [handle_client, hr]

theorem handle_client_eintr (cfd : Int) (buf : List Byte) (g : Bool) (r : ReadOut)
    (rs : List ReadOut) (ws : List WriteOut) (hr : r.res = .fail EINTR) :
    handle_client cfd buf g (r :: rs) ws =
      { handle_client cfd buf (deliver r.sig g) rs ws with
        trace := .read cfd BUFSZ (.fail EINTR) ::
          (handle_client cfd buf (deliver r.sig g) rs ws).trace } := by
  simp [handle_client, hr]

theorem handle_client_err (cfd : Int) (buf : List Byte) (g : Bool) (r : ReadOut)
    (rs : List ReadOut) (ws : List WriteOut) (e : Nat) (hr : r.res = .fail e)
    (he : e ≠ EINTR) :
    handle_client cfd buf g (r :: rs) ws =
      ⟨.closed, deliver r.sig g, buf,
        [.read cfd BUFSZ (.fail e), .log .perrorRead, .log .clientDisconnectedAbruptly,
          .close cfd], rs, ws⟩ := by
  simp [handle_client, hr, he]

theorem handle_client_data (cfd : Int) (buf : List Byte) (g : Bool) (r : ReadOut)
    (rs : List ReadOut) (ws : List WriteOut) (bs : List Byte) (hr : r.res = .ok bs)
    (hn : bs ≠ []) :
    handle_client cfd buf g (r :: rs) ws =
      match (write_loop cfd (store buf bs) bs.length 0 (deliver r.sig g) ws).status with
      | .flushed =>
        { handle_client cfd (store buf bs)
            (write_loop cfd (store buf bs) bs.length 0 (deliver r.sig g) ws).g rs
            (write_loop cfd (store buf bs) bs.length 0 (deliver r.sig g) ws).rest with
          trace := .read cfd BUFSZ (.ok bs) ::
            ((write_loop cfd (store buf bs) bs.length 0 (deliver r.sig g) ws).trace ++
              (handle_client cfd (store buf bs)
                (write_loop cfd (store buf bs) bs.length 0 (deliver r.sig g) ws).g rs
                (write_loop cfd (store buf bs) bs.length 0 (deliver r.sig g) ws).rest).trace) }
      | .failed =>
        ⟨.closed, (write_loop cfd (store buf bs) bs.length 0 (deliver r.sig g) ws).g,
          store buf bs,
          .read cfd BUFSZ (.ok bs) ::
            ((write_loop cfd (store buf bs) bs.length 0 (deliver r.sig g) ws).trace ++
              [.close cfd]),
          rs, (write_loop cfd (store buf bs) bs.length 0 (deliver r.sig g) ws).rest⟩
      | .blocked =>
        ⟨.blocked, (write_loop cfd (store buf bs) bs.length 0 (deliver r.sig g) ws).g,
          store buf bs,
          .read cfd BUFSZ (.ok bs) ::
            (write_loop cfd (store buf bs) bs.length 0 (deliver r.sig g) ws).trace,
          rs, (write_loop cfd (store buf bs) bs.length 0 (deliver r.sig g) ws).rest⟩ := by
  simp [handle_client, hr, hn]

end Forked

namespace Blocking

theorem echo_loop_eof (cfd : Int) (buf : List Byte) (g : Bool) (r : ReadOut)
    (rs : List ReadOut) (ws : List WriteOut) (hr : r.res = .ok []) :
    echo_loop cfd buf g (r :: rs) ws =
      ⟨.closed, deliver r.sig g, buf,
        [.read cfd BUFSZ (.ok []), .close cfd, .log .clientDisconnected], rs, ws⟩ := by
  simp [echo_loop, hr]

theorem echo_loop_eintr (cfd : Int) (buf : List Byte) (g : Bool) (r : ReadOut)
    (rs : List ReadOut) (ws : List WriteOut) (hr : r.res = .fail EINTR) :
    echo_loop cfd buf g (r :: rs) ws =
      { echo_loop cfd buf (deliver r.sig g) rs ws with
        trace := .read cfd BUFSZ (.fail EINTR) ::
          (echo_loop cfd buf (deliver r.sig g) rs ws).trace } := by
  simp [echo_loop, hr]

theorem echo_loop_err (cfd : Int) (buf : List Byte) (g : Bool) (r : ReadOut)
    (rs : List ReadOut) (ws : List WriteOut) (e : Nat) (hr : r.res = .fail e)
    (he : e ≠ EINTR) :
    echo_loop cfd buf g (r :: rs) ws =
      ⟨.closed, deliver r.sig g, buf,
        [.read cfd BUFSZ (.fail e), .log .perrorRead, .close cfd,
          .log .clientDisconnected], rs, ws⟩ := by
  simp [echo_loop, hr, he]

theorem echo_loop_data (cfd : Int) (buf : List Byte) (g : Bool) (r : ReadOut)
    (rs : List ReadOut) (ws : List WriteOut) (bs : List Byte) (hr : r.res = .ok bs)
    (hn : bs ≠ []) :
    echo_loop cfd buf g (r :: rs) ws =
      match (write_loop cfd (store buf bs) bs.length 0 (deliver r.sig g) ws).status with
      | .flushed =>
        { echo_loop cfd (store buf bs)
            (write_loop cfd (store buf bs) bs.length 0 (deliver r.sig g) ws).g rs
            (write_loop cfd (store buf bs) bs.length 0 (deliver r.sig g) ws).rest with
          trace := .read cfd BUFSZ (.ok bs) ::
            ((write_loop cfd (store buf bs) bs.length 0 (deliver r.sig g) ws).trace ++
              (echo_loop cfd (store buf bs)
                (write_loop cfd (store buf bs) bs.length 0 (deliver r.sig g) ws).g rs
                (write_loop cfd (store buf bs) bs.length 0 (deliver r.sig g) ws).rest).trace) }
      | .failed =>
        ⟨.closed, (write_loop cfd (store buf bs) bs.length 0 (deliver r.sig g) ws).g,
          store buf bs,
          .read cfd BUFSZ (.ok bs) ::
            ((write_loop cfd (store buf bs) bs.length 0 (deliver r.sig g) ws).trace ++
              [.close cfd, .log .clientDisconnected]),
          rs, (write_loop cfd (store buf bs) bs.length 0 (deliver r.sig g) ws).rest⟩
      | .blocked =>
        ⟨.blocked, (write_loop cfd (store buf bs) bs.length 0 (deliver r.sig g) ws).g,
          store buf bs,
          .read cfd BUFSZ (.ok bs) ::
            (write_loop cfd (store buf bs) bs.length 0 (deliver r.sig g) ws).trace,
          rs, (write_loop cfd (store buf bs) bs.length 0 (deliver r.sig g) ws).rest⟩ := by
  simp [echo_loop, hr, hn]

end Blocking

/-! ## Exact echo -/

theorem wire_append (fd : Int) (a b : List Ev) :
    wire fd (a ++ b) = wire fd a ++ wire fd b := by
  induction a with
  | nil => simp [wire]
  | cons e a ih =>
    cases e with
    | write fd1 off len data res =>
      cases res with
      | ok m =>
        by_cases h : fd1 = fd <;> simp [wire, h, ih]
      | fail e => simp [wire, ih]
    | _ => simp [wire, ih]

namespace Forked

theorem handle_client_echo (cfd : Int) (fin : ReadOut) (moreR : List ReadOut)
    (moreW : List WriteOut) (hfin : fin.res = .ok []) :
    ∀ (rs : List ReadOut) (wss : List (List WriteOut)) (buf : List Byte) (g : Bool),
      (∀ r ∈ rs, r.benign = true) →
      List.Forall₂ (fun bs ws => chunking bs.length ws = true) (payload rs) wss →
      (handle_client cfd buf g (rs ++ fin :: moreR) (wss.flatten ++ moreW)).status = .closed ∧
      wire cfd (handle_client cfd buf g (rs ++ fin :: moreR) (wss.flatten ++ moreW)).trace =
        (payload rs).flatten ∧
      (handle_client cfd buf g (rs ++ fin :: moreR) (wss.flatten ++ moreW)).restR = moreR ∧
      (handle_client cfd buf g (rs ++ fin :: moreR) (wss.flatten ++ moreW)).restW = moreW := by
  intro rs
  induction rs with
  | nil =>
    intro wss buf g _ hws
    simp only [payload, List.filterMap_nil, List.forall₂_nil_left_iff] at hws
    subst hws
    rw [List.nil_append, handle_client_eof cfd buf g fin moreR _ hfin]
    simp [wire, payload]
  | cons r rs ih =>
    intro wss buf g hrs hws
    have hr := hrs r (List.mem_cons_self _ _)
    have hrs2 : ∀ x ∈ rs, x.benign = true := fun x hx => hrs x (List.mem_cons_of_mem _ hx)
    rcases hres : r.res with bs | e
    · simp only [ReadOut.benign, hres, decide_eq_true_eq] at hr
      have hne : bs ≠ [] := by
        intro h0
        rw [h0] at hr
        simp at hr
      have hp : payload (r :: rs) = bs :: payload rs := by
        simp [payload, List.filterMap_cons, hres]
      rw [hp, List.forall₂_cons_left_iff] at hws
      obtain ⟨ws, wss2, hc, hws2, rfl⟩ := hws
      have hw := write_loop_chunking cfd (store buf bs) bs.length ws
        (wss2.flatten ++ moreW) 0 (deliver r.sig g) (Nat.zero_le _) (by simpa using hc)
      obtain ⟨hw1, hw2, hw3⟩ := hw
      rw [List.cons_append, List.flatten_cons, List.append_assoc,
        handle_client_data cfd buf g r _ _ bs hres hne, hw1]
      simp only [hw2]
      obtain ⟨h1, h2, h3, h4⟩ := ih wss2 (store buf bs)
        (write_loop cfd (store buf bs) bs.length 0 (deliver r.sig g)
          (ws ++ (wss2.flatten ++ moreW))).g hrs2 hws2
      refine ⟨h1, ?_, h3, h4⟩
      rw [hp, List.flatten_cons]
      simp only [wire, wire_append, h2, hw3, List.drop_zero, Nat.sub_zero, store_take]
    · simp only [ReadOut.benign, hres, decide_eq_true_eq] at hr
      subst hr
      have hp : payload (r :: rs) = payload rs := by
        simp [payload, List.filterMap_cons, hres]
      rw [hp] at hws ⊢
      rw [List.cons_append, handle_client_eintr cfd buf g r _ _ hres]
      obtain ⟨h1, h2, h3, h4⟩ := ih wss buf (deliver r.sig g) hrs2 hws
      exact ⟨h1, by simp only [wire, h2], h3, h4⟩

end Forked

namespace Blocking

theorem echo_loop_echo (cfd : Int) (fin : ReadOut) (moreR : List ReadOut)
    (moreW : List WriteOut) (hfin : fin.res = .ok []) :
    ∀ (rs : List ReadOut) (wss : List (List WriteOut)) (buf : List Byte) (g : Bool),
      (∀ r ∈ rs, r.benign = true) →
      List.Forall₂ (fun bs ws => chunking bs.length ws = true) (payload rs) wss →
      (echo_loop cfd buf g (rs ++ fin :: moreR) (wss.flatten ++ moreW)).status = .closed ∧
      wire cfd (echo_loop cfd buf g (rs ++ fin :: moreR) (wss.flatten ++ moreW)).trace =
        (payload rs).flatten ∧
      (echo_loop cfd buf g (rs ++ fin :: moreR) (wss.flatten ++ moreW)).restR = moreR ∧
      (echo_loop cfd buf g (rs ++ fin :: moreR) (wss.flatten ++ moreW)).restW = moreW := by
  intro rs
  induction rs with
  | nil =>
    intro wss buf g _ hws
    simp only [payload, List.filterMap_nil, List.forall₂_nil_left_iff] at hws
    subst hws
    rw [List.nil_append, echo_loop_eof cfd buf g fin moreR _ hfin]
    simp [wire, payload]
  | cons r rs ih =>
    intro wss buf g hrs hws
    have hr := hrs r (List.mem_cons_self _ _)
    have hrs2 : ∀ x ∈ rs, x.benign = true := fun x hx => hrs x (List.mem_cons_of_mem _ hx)
    rcases hres : r.res with bs | e
    · simp only [ReadOut.benign, hres, decide_eq_true_eq] at hr
      have hne : bs ≠ [] := by
        intro h0
        rw [h0] at hr
        simp at hr
      have hp : payload (r :: rs) = bs :: payload rs := by
        simp [payload, List.filterMap_cons, hres]
      rw [hp, List.forall₂_cons_left_iff] at hws
      obtain ⟨ws, wss2, hc, hws2, rfl⟩ := hws
      have hw := write_loop_chunking cfd (store buf bs) bs.length ws
        (wss2.flatten ++ moreW) 0 (deliver r.sig g) (Nat.zero_le _) (by simpa using hc)
      obtain ⟨hw1, hw2, hw3⟩ := hw
      rw [List.cons_append, List.flatten_cons, List.append_assoc,
        echo_loop_data cfd buf g r _ _ bs hres hne, hw1]
      simp only [hw2]
      obtain ⟨h1, h2, h3, h4⟩ := ih wss2 (store buf bs)
        (write_loop cfd (store buf bs) bs.length 0 (deliver r.sig g)
          (ws ++ (wss2.flatten ++ moreW))).g hrs2 hws2
      refine ⟨h1, ?_, h3, h4⟩
      rw [hp, List.flatten_cons]
      simp only [wire, wire_append, h2, hw3, List.drop_zero, Nat.sub_zero, store_take]
    · simp only [ReadOut.benign, hres, decide_eq_true_eq] at hr
      subst hr
      have hp : payload (r :: rs) = payload rs := by
        simp [payload, List.filterMap_cons, hres]
      rw [hp] at hws ⊢
      rw [List.cons_append, echo_loop_eintr cfd buf g r _ _ hres]
      obtain ⟨h1, h2, h3, h4⟩ := ih wss buf (deliver r.sig g) hrs2 hws
      exact ⟨h1, by simp only [wire, h2], h3, h4⟩

end Blocking

/-! ## Shape of a handler run: one `close`, and it comes last -/

/-- A write loop that fails ends with the failing `write` and its diagnostic;
everything before, and every event of a loop that does not fail, is plain. -/
theorem write_loop_shape (cfd : Int) (buf : List Byte) (n : Nat) :
    ∀ (ws : List WriteOut) (off : Nat) (g : Bool),
      ((write_loop cfd buf n off g ws).status = .failed →
        ∃ pre t, (write_loop cfd buf n off g ws).trace = pre ++ [t, .log .perrorWrite] ∧
          t.terminal = true ∧ ∀ e ∈ pre, e.plain = true) ∧
      ((write_loop cfd buf n off g ws).status ≠ .failed →
        ∀ e ∈ (write_loop cfd buf n off g ws).trace, e.plain = true) := by
  intro ws
  induction ws with
  | nil =>
    intro off g
    rw [write_loop_nil]
    by_cases h : off < n <;> simp [h]
  | cons w ws ih =>
    intro off g
    by_cases h : off < n
    · rcases hw : w.res with m | e
      · rw [write_loop_ok cfd buf n off g w ws m h hw]
        obtain ⟨h1, h2⟩ := ih (off + m) (deliver w.sig g)
        constructor
        · intro hf
          obtain ⟨pre, t, e1, e2, e3⟩ := h1 hf
          refine ⟨Ev.write cfd off (n - off) ((buf.drop off).take (n - off)) (.ok m) :: pre,
            t, by simp only [e1, List.cons_append], e2, ?_⟩
          intro e he
          simp only [List.mem_cons] at he
          rcases he with rfl | he
          · simp [Ev.plain, Ev.isClose, Ev.terminal]
          · exact e3 e he
        · intro hf e he
          simp only [List.mem_cons] at he
          rcases he with rfl | he
          · simp [Ev.plain, Ev.isClose, Ev.terminal]
          · exact h2 hf e he
      · by_cases he : e = EINTR
        · subst he
          rw [write_loop_eintr cfd buf n off g w ws h hw]
          obtain ⟨h1, h2⟩ := ih off (deliver w.sig g)
          constructor
          · intro hf
            obtain ⟨pre, t, e1, e2, e3⟩ := h1 hf
            refine ⟨Ev.write cfd off (n - off) ((buf.drop off).take (n - off))
              (.fail EINTR) :: pre, t, by simp only [e1, List.cons_append], e2, ?_⟩
            intro e he
            simp only [List.mem_cons] at he
            rcases he with rfl | he
            · simp [Ev.plain, Ev.isClose, Ev.terminal]
            · exact e3 e he
          · intro hf e he
            simp only [List.mem_cons] at he
            rcases he with rfl | he
            · simp [Ev.plain, Ev.isClose, Ev.terminal]
            · exact h2 hf e he
        · rw [write_loop_err cfd buf n off g w ws e h hw he]
          refine ⟨fun _ => ⟨[], _, rfl, by simp [Ev.terminal, he], by simp⟩, ?_⟩
          intro hf
          simp at hf
    · rw [write_loop_done cfd buf n off g (w :: ws) h]
      simp

namespace Forked

theorem handle_client_shape (cfd : Int) :
    ∀ (rs : List ReadOut) (buf : List Byte) (g : Bool) (ws : List WriteOut),
      ((handle_client cfd buf g rs ws).status = .closed →
        ∃ pre t logs, (handle_client cfd buf g rs ws).trace = pre ++ t :: (logs ++ [.close cfd]) ∧
          t.terminal = true ∧ (∀ e ∈ logs, e.isLog = true) ∧
          ∀ e ∈ pre, e.plain = true) ∧
      ((handle_client cfd buf g rs ws).status = .blocked →
        ∀ e ∈ (handle_client cfd buf g rs ws).trace, e.plain = true) := by
  intro rs
  induction rs with
  | nil =>
    intro buf g ws
    simp [handle_client]
  | cons r rs ih =>
    intro buf g ws
    rcases hres : r.res with bs | e
    · by_cases hne : bs = []
      · subst hne
        rw [handle_client_eof cfd buf g r rs ws hres]
        refine ⟨fun _ => ⟨[], _, [.log .clientDisconnectedFd], rfl, by simp [Ev.terminal], by simp [Ev.isLog], by simp⟩, ?_⟩
        intro h
        simp at h
      · rw [handle_client_data cfd buf g r rs ws bs hres hne]
        obtain ⟨s1, s2⟩ := write_loop_shape cfd (store buf bs) bs.length ws 0 (deliver r.sig g)
        have hev : (Ev.read cfd BUFSZ (.ok bs)).plain = true := by
          simp [Ev.plain, Ev.isClose, Ev.terminal, hne]
        cases hst : (write_loop cfd (store buf bs) bs.length 0 (deliver r.sig g) ws).status with
        | flushed =>
          have s2 := s2 (by rw [hst]; simp)
          obtain ⟨i1, i2⟩ := ih (store buf bs)
            (write_loop cfd (store buf bs) bs.length 0 (deliver r.sig g) ws).g
            (write_loop cfd (store buf bs) bs.length 0 (deliver r.sig g) ws).rest
          constructor
          · intro hc
            obtain ⟨pre, t, logs, e1, e2, e3, e4⟩ := i1 hc
            refine ⟨Ev.read cfd BUFSZ (.ok bs) ::
              ((write_loop cfd (store buf bs) bs.length 0 (deliver r.sig g) ws).trace ++ pre),
              t, logs, ?_, e2, e3, ?_⟩
            · simp only [e1, List.cons_append, List.append_assoc]
            · intro e he
              simp only [List.mem_cons, List.mem_append] at he
              rcases he with rfl | he | he
              · exact hev
              · exact s2 e he
              · exact e4 e he
          · intro hb e he
            simp only [List.mem_cons, List.mem_append] at he
            rcases he with rfl | he | he
            · exact hev
            · exact s2 e he
            · exact i2 hb e he
        | failed =>
          obtain ⟨pre, t, e1, e2, e3⟩ := s1 hst
          constructor
          · intro _
            refine ⟨Ev.read cfd BUFSZ (.ok bs) :: pre, t, [.log .perrorWrite], ?_, e2,
              by simp [Ev.isLog], ?_⟩
            · simp only [e1, List.cons_append, List.append_assoc, List.singleton_append,
                List.nil_append]
            · intro e he
              simp only [List.mem_cons] at he
              rcases he with rfl | he
              · exact hev
              · exact e3 e he
          · intro h
            simp at h
        | blocked =>
          have s2 := s2 (by rw [hst]; simp)
          constructor
          · intro h
            simp at h
          · intro _ e he
            simp only [List.mem_cons] at he
            rcases he with rfl | he
            · exact hev
            · exact s2 e he
    · by_cases he : e = EINTR
      · subst he
        rw [handle_client_eintr cfd buf g r rs ws hres]
        obtain ⟨i1, i2⟩ := ih buf (deliver r.sig g) ws
        have hev : (Ev.read cfd BUFSZ (.fail EINTR)).plain = true := by
          simp [Ev.plain, Ev.isClose, Ev.terminal]
        constructor
        · intro hc
          obtain ⟨pre, t, logs, e1, e2, e3, e4⟩ := i1 hc
          refine ⟨Ev.read cfd BUFSZ (.fail EINTR) :: pre, t, logs, ?_, e2, e3, ?_⟩
          · simp only [e1, List.cons_append]
          · intro e he
            simp only [List.mem_cons] at he
            rcases he with rfl | he
            · exact hev
            · exact e4 e he
        · intro hb e he
          simp only [List.mem_cons] at he
          rcases he with rfl | he
          · exact hev
          · exact i2 hb e he
      · rw [handle_client_err cfd buf g r rs ws e hres he]
        refine ⟨fun _ => ⟨[], _, [.log .perrorRead, .log .clientDisconnectedAbruptly], rfl, by simp [Ev.terminal, he],
          by simp [Ev.isLog], by simp⟩, ?_⟩
        intro h
        simp at h

end Forked

namespace Blocking

theorem echo_loop_shape (cfd : Int) :
    ∀ (rs : List ReadOut) (buf : List Byte) (g : Bool) (ws : List WriteOut),
      ((echo_loop cfd buf g rs ws).status = .closed →
        ∃ pre t logs, (echo_loop cfd buf g rs ws).trace = pre ++ t :: (logs ++ [.close cfd, .log .clientDisconnected]) ∧
          t.terminal = true ∧ (∀ e ∈ logs, e.isLog = true) ∧
          ∀ e ∈ pre, e.plain = true) ∧
      ((echo_loop cfd buf g rs ws).status = .blocked →
        ∀ e ∈ (echo_loop cfd buf g rs ws).trace, e.plain = true) := by
  intro rs
  induction rs with
  | nil =>
    intro buf g ws
    simp [echo_loop]
  | cons r rs ih =>
    intro buf g ws
    rcases hres : r.res with bs | e
    · by_cases hne : bs = []
      · subst hne
        rw [echo_loop_eof cfd buf g r rs ws hres]
        refine ⟨fun _ => ⟨[], _, [], rfl, by simp [Ev.terminal], by simp [Ev.isLog], by simp⟩, ?_⟩
        intro h
        simp at h
      · rw [echo_loop_data cfd buf g r rs ws bs hres hne]
        obtain ⟨s1, s2⟩ := write_loop_shape cfd (store buf bs) bs.length ws 0 (deliver r.sig g)
        have hev : (Ev.read cfd BUFSZ (.ok bs)).plain = true := by
          simp [Ev.plain, Ev.isClose, Ev.terminal, hne]
        cases hst : (write_loop cfd (store buf bs) bs.length 0 (deliver r.sig g) ws).status with
        | flushed =>
          have s2 := s2 (by rw [hst]; simp)
          obtain ⟨i1, i2⟩ := ih (store buf bs)
            (write_loop cfd (store buf bs) bs.length 0 (deliver r.sig g) ws).g
            (write_loop cfd (store buf bs) bs.length 0 (deliver r.sig g) ws).rest
          constructor
          · intro hc
            obtain ⟨pre, t, logs, e1, e2, e3, e4⟩ := i1 hc
            refine ⟨Ev.read cfd BUFSZ (.ok bs) ::
              ((write_loop cfd (store buf bs) bs.length 0 (deliver r.sig g) ws).trace ++ pre),
              t, logs, ?_, e2, e3, ?_⟩
            · simp only [e1, List.cons_append, List.append_assoc]
            · intro e he
              simp only [List.mem_cons, List.mem_append] at he
              rcases he with rfl | he | he
              · exact hev
              · exact s2 e he
              · exact e4 e he
          · intro hb e he
            simp only [List.mem_cons, List.mem_append] at he
            rcases he with rfl | he | he
            · exact hev
            · exact s2 e he
            · exact i2 hb e he
        | failed =>
          obtain ⟨pre, t, e1, e2, e3⟩ := s1 hst
          constructor
          · intro _
            refine ⟨Ev.read cfd BUFSZ (.ok bs) :: pre, t, [.log .perrorWrite], ?_, e2,
              by simp [Ev.isLog], ?_⟩
            · simp only [e1, List.cons_append, List.append_assoc, List.singleton_append,
                List.nil_append]
            · intro e he
              simp only [List.mem_cons] at he
              rcases he with rfl | he
              · exact hev
              · exact e3 e he
          · intro h
            simp at h
        | blocked =>
          have s2 := s2 (by rw [hst]; simp)
          constructor
          · intro h
            simp at h
          · intro _ e he
            simp only [List.mem_cons] at he
            rcases he with rfl | he
            · exact hev
            · exact s2 e he
    · by_cases he : e = EINTR
      · subst he
        rw [echo_loop_eintr cfd buf g r rs ws hres]
        obtain ⟨i1, i2⟩ := ih buf (deliver r.sig g) ws
        have hev : (Ev.read cfd BUFSZ (.fail EINTR)).plain = true := by
          simp [Ev.plain, Ev.isClose, Ev.terminal]
        constructor
        · intro hc
          obtain ⟨pre, t, logs, e1, e2, e3, e4⟩ := i1 hc
          refine ⟨Ev.read cfd BUFSZ (.fail EINTR) :: pre, t, logs, ?_, e2, e3, ?_⟩
          · simp only [e1, List.cons_append]
          · intro e he
            simp only [List.mem_cons] at he
            rcases he with rfl | he
            · exact hev
            · exact e4 e he
        · intro hb e he
          simp only [List.mem_cons] at he
          rcases he with rfl | he
          · exact hev
          · exact i2 hb e he
      · rw [echo_loop_err cfd buf g r rs ws e hres he]
        refine ⟨fun _ => ⟨[], _, [.log .perrorRead], rfl, by simp [Ev.terminal, he],
          by simp [Ev.isLog], by simp⟩, ?_⟩
        intro h
        simp at h

end Blocking

/-! ## The echo handlers do not depend on `g_stop` -/

theorem write_loop_indep (cfd : Int) (buf : List Byte) (n : Nat) :
    ∀ (ws ws2 : List WriteOut) (off : Nat) (g g2 : Bool),
      ws.map WriteOut.res = ws2.map WriteOut.res →
      (write_loop cfd buf n off g ws).status = (write_loop cfd buf n off g2 ws2).status ∧
      (write_loop cfd buf n off g ws).off = (write_loop cfd buf n off g2 ws2).off ∧
      (write_loop cfd buf n off g ws).trace = (write_loop cfd buf n off g2 ws2).trace ∧
      (write_loop cfd buf n off g ws).rest.map WriteOut.res =
        (write_loop cfd buf n off g2 ws2).rest.map WriteOut.res := by
  intro ws
  induction ws with
  | nil =>
    intro ws2 off g g2 hw
    cases ws2 with
    | nil =>
      rw [write_loop_nil, write_loop_nil]
      by_cases h : off < n <;> simp [h]
    | cons w2 ws2 => simp at hw
  | cons w ws ih =>
    intro ws2 off g g2 hw
    cases ws2 with
    | nil => simp at hw
    | cons w2 ws2 =>
      have hw0 := hw
      simp only [List.map_cons, List.cons.injEq] at hw
      obtain ⟨hres, hw⟩ := hw
      by_cases h : off < n
      · rcases hx : w.res with m | e
        · have hx2 : w2.res = .ok m := by rw [← hres, hx]
          rw [write_loop_ok cfd buf n off g w ws m h hx,
            write_loop_ok cfd buf n off g2 w2 ws2 m h hx2]
          obtain ⟨i1, i2, i3, i4⟩ := ih ws2 (off + m) (deliver w.sig g) (deliver w2.sig g2) hw
          exact ⟨i1, i2, by simp only [i3], i4⟩
        · have hx2 : w2.res = .fail e := by rw [← hres, hx]
          by_cases he : e = EINTR
          · subst he
            rw [write_loop_eintr cfd buf n off g w ws h hx,
              write_loop_eintr cfd buf n off g2 w2 ws2 h hx2]
            obtain ⟨i1, i2, i3, i4⟩ := ih ws2 off (deliver w.sig g) (deliver w2.sig g2) hw
            exact ⟨i1, i2, by simp only [i3], i4⟩
          · rw [write_loop_err cfd buf n off g w ws e h hx he,
              write_loop_err cfd buf n off g2 w2 ws2 e h hx2 he]
            exact ⟨rfl, rfl, rfl, hw⟩
      · rw [write_loop_done cfd buf n off g (w :: ws) h,
          write_loop_done cfd buf n off g2 (w2 :: ws2) h]
        exact ⟨rfl, rfl, rfl, hw0⟩

theorem loopOnly_isStop (e : Ev) (h : e.loopOnly = false) : e.isStop = false := by
  cases e <;> simp_all [Ev.loopOnly, Ev.isStop]

theorem loopOnly_isAccept (e : Ev) (h : e.loopOnly = false) : e.isAccept = false := by
  cases e <;> simp_all [Ev.loopOnly, Ev.isAccept]

theorem write_loop_no_loop_op (cfd : Int) (buf : List Byte) (n : Nat) :
    ∀ (ws : List WriteOut) (off : Nat) (g : Bool),
      ∀ e ∈ (write_loop cfd buf n off g ws).trace, e.loopOnly = false := by
  intro ws
  induction ws with
  | nil =>
    intro off g
    rw [write_loop_nil]
    by_cases h : off < n <;> simp [h]
  | cons w ws ih =>
    intro off g
    by_cases h : off < n
    · rcases hx : w.res with m | e
      · rw [write_loop_ok cfd buf n off g w ws m h hx]
        intro e he
        simp only [List.mem_cons] at he
        rcases he with rfl | he
        · rfl
        · exact ih _ _ e he
      · by_cases he : e = EINTR
        · subst he
          rw [write_loop_eintr cfd buf n off g w ws h hx]
          intro e he
          simp only [List.mem_cons] at he
          rcases he with rfl | he
          · rfl
          · exact ih _ _ e he
        · rw [write_loop_err cfd buf n off g w ws e h hx he]
          simp [Ev.loopOnly]
    · rw [write_loop_done cfd buf n off g (w :: ws) h]
      simp

namespace Forked

theorem handle_client_indep (cfd : Int) :
    ∀ (rs rs2 : List ReadOut) (buf : List Byte) (g g2 : Bool) (ws ws2 : List WriteOut),
      rs.map ReadOut.res = rs2.map ReadOut.res →
      ws.map WriteOut.res = ws2.map WriteOut.res →
      (handle_client cfd buf g rs ws).status = (handle_client cfd buf g2 rs2 ws2).status ∧
      (handle_client cfd buf g rs ws).trace = (handle_client cfd buf g2 rs2 ws2).trace ∧
      (handle_client cfd buf g rs ws).buf = (handle_client cfd buf g2 rs2 ws2).buf ∧
      (handle_client cfd buf g rs ws).restR.map ReadOut.res =
        (handle_client cfd buf g2 rs2 ws2).restR.map ReadOut.res ∧
      (handle_client cfd buf g rs ws).restW.map WriteOut.res =
        (handle_client cfd buf g2 rs2 ws2).restW.map WriteOut.res := by
  intro rs
  induction rs with
  | nil =>
    intro rs2 buf g g2 ws ws2 hr hw
    cases rs2 with
    | nil => simp [handle_client, hw]
    | cons r2 rs2 => simp at hr
  | cons r rs ih =>
    intro rs2 buf g g2 ws ws2 hr hw
    cases rs2 with
    | nil => simp at hr
    | cons r2 rs2 =>
      simp only [List.map_cons, List.cons.injEq] at hr
      obtain ⟨hres, hr⟩ := hr
      rcases hx : r.res with bs | e
      · have hx2 : r2.res = .ok bs := by rw [← hres, hx]
        by_cases hne : bs = []
        · subst hne
          rw [handle_client_eof cfd buf g r rs ws hx, handle_client_eof cfd buf g2 r2 rs2 ws2 hx2]
          simp [hr, hw]
        · rw [handle_client_data cfd buf g r rs ws bs hx hne,
            handle_client_data cfd buf g2 r2 rs2 ws2 bs hx2 hne]
          obtain ⟨w1, w2, w3, w4⟩ := write_loop_indep cfd (store buf bs) bs.length ws ws2 0
            (deliver r.sig g) (deliver r2.sig g2) hw
          rw [← w1, ← w3]
          cases hst : (write_loop cfd (store buf bs) bs.length 0 (deliver r.sig g) ws).status with
          | flushed =>
            obtain ⟨i1, i2, i3, i4, i5⟩ := ih rs2 (store buf bs)
              (write_loop cfd (store buf bs) bs.length 0 (deliver r.sig g) ws).g
              (write_loop cfd (store buf bs) bs.length 0 (deliver r2.sig g2) ws2).g
              (write_loop cfd (store buf bs) bs.length 0 (deliver r.sig g) ws).rest
              (write_loop cfd (store buf bs) bs.length 0 (deliver r2.sig g2) ws2).rest hr w4
            exact ⟨i1, by simp only [i2], i3, i4, i5⟩
          | failed => exact ⟨rfl, rfl, rfl, hr, w4⟩
          | blocked => exact ⟨rfl, rfl, rfl, hr, w4⟩
      · have hx2 : r2.res = .fail e := by rw [← hres, hx]
        by_cases he : e = EINTR
        · subst he
          rw [handle_client_eintr cfd buf g r rs ws hx, handle_client_eintr cfd buf g2 r2 rs2 ws2 hx2]
          obtain ⟨i1, i2, i3, i4, i5⟩ := ih rs2 buf (deliver r.sig g) (deliver r2.sig g2)
            ws ws2 hr hw
          exact ⟨i1, by simp only [i2], i3, i4, i5⟩
        · rw [handle_client_err cfd buf g r rs ws e hx he, handle_client_err cfd buf g2 r2 rs2 ws2 e hx2 he]
          simp [hr, hw]

theorem handle_client_no_loop_op (cfd : Int) :
    ∀ (rs : List ReadOut) (buf : List Byte) (g : Bool) (ws : List WriteOut),
      ∀ e ∈ (handle_client cfd buf g rs ws).trace, e.loopOnly = false := by
  intro rs
  induction rs with
  | nil =>
    intro buf g ws
    simp [handle_client]
  | cons r rs ih =>
    intro buf g ws
    rcases hx : r.res with bs | e
    · by_cases hne : bs = []
      · subst hne
        rw [handle_client_eof cfd buf g r rs ws hx]
        simp [Ev.loopOnly]
      · rw [handle_client_data cfd buf g r rs ws bs hx hne]
        have hw := write_loop_no_loop_op cfd (store buf bs) bs.length ws 0 (deliver r.sig g)
        cases hst : (write_loop cfd (store buf bs) bs.length 0 (deliver r.sig g) ws).status with
        | flushed =>
          intro e he
          simp only [List.mem_cons, List.mem_append] at he
          rcases he with rfl | he | he
          · rfl
          · exact hw e he
          · exact ih _ _ _ e he
        | failed =>
          intro e he
          simp only [List.mem_cons, List.mem_append] at he
          rcases he with rfl | he | he
          · rfl
          · exact hw e he
          · simp only [List.mem_cons, List.mem_singleton, List.not_mem_nil, or_false] at he
            rcases he with rfl | rfl
            all_goals rfl
        | blocked =>
          intro e he
          simp only [List.mem_cons] at he
          rcases he with rfl | he
          · rfl
          · exact hw e he
    · by_cases he : e = EINTR
      · subst he
        rw [handle_client_eintr cfd buf g r rs ws hx]
        intro e he
        simp only [List.mem_cons] at he
        rcases he with rfl | he
        · rfl
        · exact ih _ _ _ e he
      · rw [handle_client_err cfd buf g r rs ws e hx he]
        simp [Ev.loopOnly]

end Forked

namespace Blocking

theorem echo_loop_indep (cfd : Int) :
    ∀ (rs rs2 : List ReadOut) (buf : List Byte) (g g2 : Bool) (ws ws2 : List WriteOut),
      rs.map ReadOut.res = rs2.map ReadOut.res →
      ws.map WriteOut.res = ws2.map WriteOut.res →
      (echo_loop cfd buf g rs ws).status = (echo_loop cfd buf g2 rs2 ws2).status ∧
      (echo_loop cfd buf g rs ws).trace = (echo_loop cfd buf g2 rs2 ws2).trace ∧
      (echo_loop cfd buf g rs ws).buf = (echo_loop cfd buf g2 rs2 ws2).buf ∧
      (echo_loop cfd buf g rs ws).restR.map ReadOut.res =
        (echo_loop cfd buf g2 rs2 ws2).restR.map ReadOut.res ∧
      (echo_loop cfd buf g rs ws).restW.map WriteOut.res =
        (echo_loop cfd buf g2 rs2 ws2).restW.map WriteOut.res := by
  intro rs
  induction rs with
  | nil =>
    intro rs2 buf g g2 ws ws2 hr hw
    cases rs2 with
    | nil => simp [echo_loop, hw]
    | cons r2 rs2 => simp at hr
  | cons r rs ih =>
    intro rs2 buf g g2 ws ws2 hr hw
    cases rs2 with
    | nil => simp at hr
    | cons r2 rs2 =>
      simp only [List.map_cons, List.cons.injEq] at hr
      obtain ⟨hres, hr⟩ := hr
      rcases hx : r.res with bs | e
      · have hx2 : r2.res = .ok bs := by rw [← hres, hx]
        by_cases hne : bs = []
        · subst hne
          rw [echo_loop_eof cfd buf g r rs ws hx, echo_loop_eof cfd buf g2 r2 rs2 ws2 hx2]
          simp [hr, hw]
        · rw [echo_loop_data cfd buf g r rs ws bs hx hne,
            echo_loop_data cfd buf g2 r2 rs2 ws2 bs hx2 hne]
          obtain ⟨w1, w2, w3, w4⟩ := write_loop_indep cfd (store buf bs) bs.length ws ws2 0
            (deliver r.sig g) (deliver r2.sig g2) hw
          rw [← w1, ← w3]
          cases hst : (write_loop cfd (store buf bs) bs.length 0 (deliver r.sig g) ws).status with
          | flushed =>
            obtain ⟨i1, i2, i3, i4, i5⟩ := ih rs2 (store buf bs)
              (write_loop cfd (store buf bs) bs.length 0 (deliver r.sig g) ws).g
              (write_loop cfd (store buf bs) bs.length 0 (deliver r2.sig g2) ws2).g
              (write_loop cfd (store buf bs) bs.length 0 (deliver r.sig g) ws).rest
              (write_loop cfd (store buf bs) bs.length 0 (deliver r2.sig g2) ws2).rest hr w4
            exact ⟨i1, by simp only [i2], i3, i4, i5⟩
          | failed => exact ⟨rfl, rfl, rfl, hr, w4⟩
          | blocked => exact ⟨rfl, rfl, rfl, hr, w4⟩
      · have hx2 : r2.res = .fail e := by rw [← hres, hx]
        by_cases he : e = EINTR
        · subst he
          rw [echo_loop_eintr cfd buf g r rs ws hx, echo_loop_eintr cfd buf g2 r2 rs2 ws2 hx2]
          obtain ⟨i1, i2, i3, i4, i5⟩ := ih rs2 buf (deliver r.sig g) (deliver r2.sig g2)
            ws ws2 hr hw
          exact ⟨i1, by simp only [i2], i3, i4, i5⟩
        · rw [echo_loop_err cfd buf g r rs ws e hx he, echo_loop_err cfd buf g2 r2 rs2 ws2 e hx2 he]
          simp [hr, hw]

theorem echo_loop_no_loop_op (cfd : Int) :
    ∀ (rs : List ReadOut) (buf : List Byte) (g : Bool) (ws : List WriteOut),
      ∀ e ∈ (echo_loop cfd buf g rs ws).trace, e.loopOnly = false := by
  intro rs
  induction rs with
  | nil =>
    intro buf g ws
    simp [echo_loop]
  | cons r rs ih =>
    intro buf g ws
    rcases hx : r.res with bs | e
    · by_cases hne : bs = []
      · subst hne
        rw [echo_loop_eof cfd buf g r rs ws hx]
        simp [Ev.loopOnly]
      · rw [echo_loop_data cfd buf g r rs ws bs hx hne]
        have hw := write_loop_no_loop_op cfd (store buf bs) bs.length ws 0 (deliver r.sig g)
        cases hst : (write_loop cfd (store buf bs) bs.length 0 (deliver r.sig g) ws).status with
        | flushed =>
          intro e he
          simp only [List.mem_cons, List.mem_append] at he
          rcases he with rfl | he | he
          · rfl
          · exact hw e he
          · exact ih _ _ _ e he
        | failed =>
          intro e he
          simp only [List.mem_cons, List.mem_append] at he
          rcases he with rfl | he | he
          · rfl
          · exact hw e he
          · simp only [List.mem_cons, List.mem_singleton, List.not_mem_nil, or_false] at he
            rcases he with rfl | rfl
            all_goals rfl
        | blocked =>
          intro e he
          simp only [List.mem_cons] at he
          rcases he with rfl | he
          · rfl
          · exact hw e he
    · by_cases he : e = EINTR
      · subst he
        rw [echo_loop_eintr cfd buf g r rs ws hx]
        intro e he
        simp only [List.mem_cons] at he
        rcases he with rfl | he
        · rfl
        · exact ih _ _ _ e he
      · rw [echo_loop_err cfd buf g r rs ws e hx he]
        simp [Ev.loopOnly]

end Blocking

/-! ## Step equations of the two accept loops -/

namespace Forked

theorem serve_nil (lfd : Int) (g : Bool) :
    serve lfd g [] =
      if g then ⟨.returned 0, true, [.stop true, .close lfd, .log .bye]⟩
      else ⟨.blocked, false, [.stop false]⟩ := by
  cases g <;> simp [serve, accept_loop]

theorem serve_stop (lfd : Int) (g : Bool) (it : Iter) (its : List Iter)
    (hg : deliver it.sigTop g = true) :
    serve lfd g (it :: its) =
      ⟨.returned 0, true, [.stop true, .close lfd, .log .bye]⟩ := by
  simp [serve, accept_loop, hg]

theorem serve_intr_stop (lfd : Int) (g : Bool) (it : Iter) (its : List Iter)
    (hg : deliver it.sigTop g = false) (hc : it.cfd < 0) (he : it.errno = EINTR)
    (hs : it.sigAcc = true) :
    serve lfd g (it :: its) =
      ⟨.returned 0, true,
        [.stop false, .accept lfd it.cfd EINTR, .stop true, .close lfd, .log .bye]⟩ := by
  have hd : deliver it.sigAcc false = true := by simp [deliver, on_stop, hs]
  simp [serve, accept_loop, hg, hc, he, hd]

theorem serve_intr_retry (lfd : Int) (g : Bool) (it : Iter) (its : List Iter)
    (hg : deliver it.sigTop g = false) (hc : it.cfd < 0) (he : it.errno = EINTR)
    (hs : it.sigAcc = false) :
    serve lfd g (it :: its) =
      { serve lfd false its with
        trace := [.stop false, .accept lfd it.cfd EINTR, .stop false] ++
          (serve lfd false its).trace } := by
  have hd : deliver it.sigAcc false = false := by simp [deliver, hs]
  simp only [serve, accept_loop, hg, hc, he, hd, Bool.false_eq_true, if_false, if_true]
  cases (accept_loop lfd false its).status <;> simp

theorem serve_fail (lfd : Int) (g : Bool) (it : Iter) (its : List Iter)
    (hg : deliver it.sigTop g = false) (hc : it.cfd < 0) (he : it.errno ≠ EINTR) :
    serve lfd g (it :: its) =
      { serve lfd (deliver it.sigAcc false) its with
        trace := [.stop false, .accept lfd it.cfd it.errno, .log .perrorAccept] ++
          (serve lfd (deliver it.sigAcc false) its).trace } := by
  simp only [serve, accept_loop, hg, hc, he, Bool.false_eq_true, if_false, if_true]
  cases (accept_loop lfd (deliver it.sigAcc false) its).status <;> simp

theorem serve_fork_fail (lfd : Int) (g : Bool) (it : Iter) (its : List Iter)
    (hg : deliver it.sigTop g = false) (hc : 0 ≤ it.cfd) (hp : it.pid < 0) :
    serve lfd g (it :: its) =
      { serve lfd (deliver it.sigAcc false) its with
        trace := [.stop false, .accept lfd it.cfd it.errno, .log .clientConnected,
            .fork it.pid, .log .perrorFork, .close it.cfd] ++
          (serve lfd (deliver it.sigAcc false) its).trace } := by
  have hc2 : ¬ it.cfd < 0 := by omega
  simp only [serve, accept_loop, hg, hc2, hp, Bool.false_eq_true, if_false, if_true]
  cases (accept_loop lfd (deliver it.sigAcc false) its).status <;> simp

theorem serve_parent (lfd : Int) (g : Bool) (it : Iter) (its : List Iter)
    (hg : deliver it.sigTop g = false) (hc : 0 ≤ it.cfd) (hp : 0 < it.pid) :
    serve lfd g (it :: its) =
      { serve lfd (deliver it.sigAcc false) its with
        trace := [.stop false, .accept lfd it.cfd it.errno, .log .clientConnected,
            .fork it.pid, .close it.cfd] ++
          (serve lfd (deliver it.sigAcc false) its).trace } := by
  have hc2 : ¬ it.cfd < 0 := by omega
  have hp2 : ¬ it.pid < 0 := by omega
  have hp3 : ¬ it.pid = 0 := by omega
  simp only [serve, accept_loop, hg, hc2, hp2, hp3, Bool.false_eq_true, if_false]
  cases (accept_loop lfd (deliver it.sigAcc false) its).status <;> simp

theorem serve_child (lfd : Int) (g : Bool) (it : Iter) (its : List Iter)
    (hg : deliver it.sigTop g = false) (hc : 0 ≤ it.cfd) (hp : it.pid = 0) :
    serve lfd g (it :: its) =
      match (handle_client it.cfd it.stack (deliver it.sigAcc false) it.reads
          it.writes).status with
      | .closed =>
        ⟨.exited 0,
          (handle_client it.cfd it.stack (deliver it.sigAcc false) it.reads it.writes).g,
          [.stop false, .accept lfd it.cfd it.errno, .log .clientConnected, .fork 0,
            .close lfd] ++
          (handle_client it.cfd it.stack (deliver it.sigAcc false) it.reads
            it.writes).trace ++ [.exited 0]⟩
      | .blocked =>
        ⟨.blocked,
          (handle_client it.cfd it.stack (deliver it.sigAcc false) it.reads it.writes).g,
          [.stop false, .accept lfd it.cfd it.errno, .log .clientConnected, .fork 0,
            .close lfd] ++
          (handle_client it.cfd it.stack (deliver it.sigAcc false) it.reads
            it.writes).trace⟩ := by
  have hc2 : ¬ it.cfd < 0 := by omega
  simp only [serve, accept_loop, hg, hc2, hp, Bool.false_eq_true, if_false, if_true,
    lt_self_iff_false]
  cases (handle_client it.cfd it.stack (deliver it.sigAcc false) it.reads
    it.writes).status <;> simp

end Forked

namespace Blocking

theorem inline_serve_nil (lfd : Int) (buf : List Byte) (g : Bool) :
    serve lfd buf g [] =
      if g then ⟨.returned 0, true, [.stop true, .close lfd, .log .bye]⟩
      else ⟨.blocked, false, [.stop false]⟩ := by
  cases g <;> simp [serve, accept_loop]

theorem inline_serve_stop (lfd : Int) (buf : List Byte) (g : Bool) (it : Iter) (its : List Iter)
    (hg : deliver it.sigTop g = true) :
    serve lfd buf g (it :: its) =
      ⟨.returned 0, true, [.stop true, .close lfd, .log .bye]⟩ := by
  simp [serve, accept_loop, hg]

theorem inline_serve_intr_stop (lfd : Int) (buf : List Byte) (g : Bool) (it : Iter) (its : List Iter)
    (hg : deliver it.sigTop g = false) (hc : it.cfd < 0) (he : it.errno = EINTR)
    (hs : it.sigAcc = true) :
    serve lfd buf g (it :: its) =
      ⟨.returned 0, true,
        [.stop false, .accept lfd it.cfd EINTR, .stop true, .close lfd, .log .bye]⟩ := by
  have hd : deliver it.sigAcc false = true := by simp [deliver, on_stop, hs]
  simp [serve, accept_loop, hg, hc, he, hd]

theorem inline_serve_intr_retry (lfd : Int) (buf : List Byte) (g : Bool) (it : Iter) (its : List Iter)
    (hg : deliver it.sigTop g = false) (hc : it.cfd < 0) (he : it.errno = EINTR)
    (hs : it.sigAcc = false) :
    serve lfd buf g (it :: its) =
      { serve lfd buf false its with
        trace := [.stop false, .accept lfd it.cfd EINTR, .stop false] ++
          (serve lfd buf false its).trace } := by
  have hd : deliver it.sigAcc false = false := by simp [deliver, hs]
  simp only [serve, accept_loop, hg, hc, he, hd, Bool.false_eq_true, if_false, if_true]
  cases (accept_loop lfd buf false its).status <;> simp

theorem inline_serve_fail (lfd : Int) (buf : List Byte) (g : Bool) (it : Iter) (its : List Iter)
    (hg : deliver it.sigTop g = false) (hc : it.cfd < 0) (he : it.errno ≠ EINTR) :
    serve lfd buf g (it :: its) =
      { serve lfd buf (deliver it.sigAcc false) its with
        trace := [.stop false, .accept lfd it.cfd it.errno, .log .perrorAccept] ++
          (serve lfd buf (deliver it.sigAcc false) its).trace } := by
  simp only [serve, accept_loop, hg, hc, he, Bool.false_eq_true, if_false, if_true]
  cases (accept_loop lfd buf (deliver it.sigAcc false) its).status <;> simp

theorem serve_conn (lfd : Int) (buf : List Byte) (g : Bool) (it : Iter)
    (its : List Iter) (hg : deliver it.sigTop g = false) (hc : 0 ≤ it.cfd) :
    serve lfd buf g (it :: its) =
      match (echo_loop it.cfd buf (deliver it.sigAcc false) it.reads it.writes).status with
      | .closed =>
        { serve lfd
            (echo_loop it.cfd buf (deliver it.sigAcc false) it.reads it.writes).buf
            (echo_loop it.cfd buf (deliver it.sigAcc false) it.reads it.writes).g its with
          trace := [.stop false, .accept lfd it.cfd it.errno, .log .clientConnected] ++
            (echo_loop it.cfd buf (deliver it.sigAcc false) it.reads it.writes).trace ++
            (serve lfd
              (echo_loop it.cfd buf (deliver it.sigAcc false) it.reads it.writes).buf
              (echo_loop it.cfd buf (deliver it.sigAcc false) it.reads it.writes).g
              its).trace }
      | .blocked =>
        ⟨.blocked, (echo_loop it.cfd buf (deliver it.sigAcc false) it.reads it.writes).g,
          [.stop false, .accept lfd it.cfd it.errno, .log .clientConnected] ++
            (echo_loop it.cfd buf (deliver it.sigAcc false) it.reads it.writes).trace⟩ := by
  have hc2 : ¬ it.cfd < 0 := by omega
  simp only [serve, accept_loop, hg, hc2, Bool.false_eq_true, if_false]
  cases (echo_loop it.cfd buf (deliver it.sigAcc false) it.reads it.writes).status
  · simp only
    cases (accept_loop lfd
      (echo_loop it.cfd buf (deliver it.sigAcc false) it.reads it.writes).buf
      (echo_loop it.cfd buf (deliver it.sigAcc false) it.reads it.writes).g its).status <;>
      simp
  · simp

end Blocking

/-! ## `main` after a successful start-up -/

namespace Forked

theorem main_runs_serve (su : Startup) (script : List Iter) (h1 : 0 ≤ su.socket)
    (h2 : 0 ≤ su.setsockopt) (h3 : 0 ≤ su.bind) (h4 : 0 ≤ su.listen) :
    (main su script).status = (serve su.socket (deliver su.sig false) script).status ∧
    ∃ pre, (main su script).trace =
      pre ++ (serve su.socket (deliver su.sig false) script).trace := by
  have e1 : ¬ su.socket < 0 := by omega
  have e2 : ¬ su.setsockopt < 0 := by omega
  have e3 : ¬ su.bind < 0 := by omega
  have e4 : ¬ su.listen < 0 := by omega
  simp only [main, e1, e2, e3, e4, if_false]
  exact ⟨trivial, _, rfl⟩

end Forked

namespace Blocking

theorem inline_main_runs_serve (su : Startup) (buf : List Byte) (script : List Iter)
    (h1 : 0 ≤ su.socket) (h2 : 0 ≤ su.setsockopt) (h3 : 0 ≤ su.bind)
    (h4 : 0 ≤ su.listen) :
    (main su buf script).status =
      (serve su.socket buf (deliver su.sig false) script).status ∧
    ∃ pre, (main su buf script).trace =
      pre ++ (serve su.socket buf (deliver su.sig false) script).trace := by
  have e1 : ¬ su.socket < 0 := by omega
  have e2 : ¬ su.setsockopt < 0 := by omega
  have e3 : ¬ su.bind < 0 := by omega
  have e4 : ¬ su.listen < 0 := by omega
  simp only [main, e1, e2, e3, e4, if_false]
  exact ⟨trivial, _, rfl⟩

end Blocking

/-! ## How an iteration of the accept loop begins -/

namespace Forked

theorem serve_begins (lfd : Int) (g : Bool) (it : Iter) (its : List Iter)
    (hg : deliver it.sigTop g = false) :
    ∃ rest, (serve lfd g (it :: its)).trace =
      .stop false :: .accept lfd it.cfd it.errno :: rest := by
  by_cases hc : it.cfd < 0
  · by_cases he : it.errno = EINTR
    · cases hs : it.sigAcc
      · rw [serve_intr_retry lfd g it its hg hc he hs, he]
        exact ⟨_, rfl⟩
      · rw [serve_intr_stop lfd g it its hg hc he hs, he]
        exact ⟨_, rfl⟩
    · rw [serve_fail lfd g it its hg hc he]
      exact ⟨_, rfl⟩
  · have hc2 : 0 ≤ it.cfd := by omega
    rcases lt_trichotomy it.pid 0 with hp | hp | hp
    · rw [serve_fork_fail lfd g it its hg hc2 hp]
      exact ⟨_, rfl⟩
    · rw [serve_child lfd g it its hg hc2 hp]
      cases (handle_client it.cfd it.stack (deliver it.sigAcc false) it.reads
        it.writes).status
      · exact ⟨_, rfl⟩
      · exact ⟨_, rfl⟩
    · rw [serve_parent lfd g it its hg hc2 hp]
      exact ⟨_, rfl⟩

theorem serve_head (lfd : Int) (g : Bool) (its : List Iter) :
    ∃ v, (serve lfd g its).trace.head? = some (.stop v) := by
  cases its with
  | nil =>
    rw [serve_nil]
    cases g
    · exact ⟨false, rfl⟩
    · exact ⟨true, rfl⟩
  | cons it its =>
    cases hg : deliver it.sigTop g
    · obtain ⟨rest, h⟩ := serve_begins lfd g it its hg
      rw [h]
      exact ⟨false, rfl⟩
    · rw [serve_stop lfd g it its hg]
      exact ⟨true, rfl⟩

end Forked

namespace Blocking

theorem inline_serve_begins (lfd : Int) (buf : List Byte) (g : Bool) (it : Iter)
    (its : List Iter) (hg : deliver it.sigTop g = false) :
    ∃ rest, (serve lfd buf g (it :: its)).trace =
      .stop false :: .accept lfd it.cfd it.errno :: rest := by
  by_cases hc : it.cfd < 0
  · by_cases he : it.errno = EINTR
    · cases hs : it.sigAcc
      · rw [inline_serve_intr_retry lfd buf g it its hg hc he hs, he]
        exact ⟨_, rfl⟩
      · rw [inline_serve_intr_stop lfd buf g it its hg hc he hs, he]
        exact ⟨_, rfl⟩
    · rw [inline_serve_fail lfd buf g it its hg hc he]
      exact ⟨_, rfl⟩
  · have hc2 : 0 ≤ it.cfd := by omega
    rw [serve_conn lfd buf g it its hg hc2]
    cases (echo_loop it.cfd buf (deliver it.sigAcc false) it.reads it.writes).status
    · exact ⟨_, rfl⟩
    · exact ⟨_, rfl⟩

theorem inline_serve_head (lfd : Int) (buf : List Byte) (g : Bool) (its : List Iter) :
    ∃ v, (serve lfd buf g its).trace.head? = some (.stop v) := by
  cases its with
  | nil =>
    rw [inline_serve_nil]
    cases g
    · exact ⟨false, rfl⟩
    · exact ⟨true, rfl⟩
  | cons it its =>
    cases hg : deliver it.sigTop g
    · obtain ⟨rest, h⟩ := inline_serve_begins lfd buf g it its hg
      rw [h]
      exact ⟨false, rfl⟩
    · rw [inline_serve_stop lfd buf g it its hg]
      exact ⟨true, rfl⟩

end Blocking

/-! ## Supervisor and worker -/

namespace Forked

/-- Up to the first `fork` that returns `0` the process performs no `read` and
no `write`; after it the process first closes the listening endpoint, never
calls `accept` and never reads `g_stop`; and a process that leaves through
`_exit` does so with code `0`, as its last action. -/
theorem serve_roles (lfd : Int) :
    ∀ (script : List Iter) (g : Bool),
      (∀ e ∈ supervisorPart (serve lfd g script).trace, e.isTransfer = false) ∧
      (∀ e ∈ workerPart (serve lfd g script).trace, e.loopOnly = true → e = .exited 0) ∧
      (Ev.fork 0 ∈ (serve lfd g script).trace →
        (workerPart (serve lfd g script).trace).head? = some (.close lfd)) ∧
      (∀ c, (serve lfd g script).status = .exited c →
        c = 0 ∧ (serve lfd g script).trace.getLast? = some (.exited 0)) := by
  intro script
  induction script with
  | nil =>
    intro g
    rw [serve_nil]
    cases g <;> simp [supervisorPart, workerPart, Ev.isTransfer]
  | cons it its ih =>
    intro g
    cases hg : deliver it.sigTop g
    swap
    · rw [serve_stop lfd g it its hg]
      simp [supervisorPart, workerPart, Ev.isTransfer]
    by_cases hc : it.cfd < 0
    · by_cases he : it.errno = EINTR
      · cases hs : it.sigAcc
        · rw [serve_intr_retry lfd g it its hg hc he hs]
          obtain ⟨i1, i2, i3, i4⟩ := ih false
          refine ⟨?_, ?_, ?_, ?_⟩
          · simpa [supervisorPart, Ev.isTransfer] using i1
          · simpa [workerPart] using i2
          · simpa [workerPart] using i3
          · intro c hcx
            obtain ⟨j1, j2⟩ := i4 c hcx
            refine ⟨j1, ?_⟩
            simp only [List.cons_append, List.nil_append]
            rw [List.getLast?_cons_cons, List.getLast?_cons_cons]
            cases hl : (serve lfd false its).trace with
            | nil => rw [hl] at j2; simp at j2
            | cons a l => rw [List.getLast?_cons_cons, ← hl]; exact j2
        · rw [serve_intr_stop lfd g it its hg hc he hs]
          simp [supervisorPart, workerPart, Ev.isTransfer]
      · rw [serve_fail lfd g it its hg hc he]
        obtain ⟨i1, i2, i3, i4⟩ := ih (deliver it.sigAcc false)
        refine ⟨?_, ?_, ?_, ?_⟩
        · simpa [supervisorPart, Ev.isTransfer] using i1
        · simpa [workerPart] using i2
        · simpa [workerPart] using i3
        · intro c hcx
          obtain ⟨j1, j2⟩ := i4 c hcx
          refine ⟨j1, ?_⟩
          simp only [List.cons_append, List.nil_append]
          rw [List.getLast?_cons_cons, List.getLast?_cons_cons]
          cases hl : (serve lfd (deliver it.sigAcc false) its).trace with
          | nil => rw [hl] at j2; simp at j2
          | cons a l => rw [List.getLast?_cons_cons, ← hl]; exact j2
    · have hc2 : 0 ≤ it.cfd := by omega
      rcases lt_trichotomy it.pid 0 with hp | hp | hp
      · rw [serve_fork_fail lfd g it its hg hc2 hp]
        have hp0 : it.pid ≠ 0 := by omega
        obtain ⟨i1, i2, i3, i4⟩ := ih (deliver it.sigAcc false)
        refine ⟨?_, ?_, ?_, ?_⟩
        · simpa [supervisorPart, Ev.isTransfer, hp0] using i1
        · simpa [workerPart, hp0] using i2
        · simpa [workerPart, hp0, Ne.symm hp0] using i3
        · intro c hcx
          obtain ⟨j1, j2⟩ := i4 c hcx
          refine ⟨j1, ?_⟩
          simp only [List.cons_append, List.nil_append]
          rw [List.getLast?_cons_cons, List.getLast?_cons_cons, List.getLast?_cons_cons,
            List.getLast?_cons_cons, List.getLast?_cons_cons]
          cases hl : (serve lfd (deliver it.sigAcc false) its).trace with
          | nil => rw [hl] at j2; simp at j2
          | cons a l => rw [List.getLast?_cons_cons, ← hl]; exact j2
      · rw [serve_child lfd g it its hg hc2 hp]
        have hno := handle_client_no_loop_op it.cfd it.reads it.stack
          (deliver it.sigAcc false) it.writes
        cases (handle_client it.cfd it.stack (deliver it.sigAcc false) it.reads
          it.writes).status
        · refine ⟨?_, ?_, ?_, ?_⟩
          · simp [supervisorPart, Ev.isTransfer]
          · intro e he hl
            simp [workerPart] at he
            rcases he with rfl | he | rfl
            · simp [Ev.loopOnly] at hl
            · rw [hno e he] at hl
              simp at hl
            · rfl
          · intro _
            simp [workerPart]
          · intro c hcx
            simp only [LStatus.exited.injEq, PStatus.exited.injEq] at hcx
            refine ⟨hcx.symm, ?_⟩
            exact List.getLast?_concat _
        · refine ⟨?_, ?_, ?_, ?_⟩
          · simp [supervisorPart, Ev.isTransfer]
          · intro e he hl
            simp [workerPart] at he
            rcases he with rfl | he
            · simp [Ev.loopOnly] at hl
            · rw [hno e he] at hl
              simp at hl
          · intro _
            simp [workerPart]
          · intro c hcx
            simp at hcx
      · rw [serve_parent lfd g it its hg hc2 hp]
        have hp0 : it.pid ≠ 0 := by omega
        obtain ⟨i1, i2, i3, i4⟩ := ih (deliver it.sigAcc false)
        refine ⟨?_, ?_, ?_, ?_⟩
        · simpa [supervisorPart, Ev.isTransfer, hp0] using i1
        · simpa [workerPart, hp0] using i2
        · simpa [workerPart, hp0, Ne.symm hp0] using i3
        · intro c hcx
          obtain ⟨j1, j2⟩ := i4 c hcx
          refine ⟨j1, ?_⟩
          simp only [List.cons_append, List.nil_append]
          rw [List.getLast?_cons_cons, List.getLast?_cons_cons, List.getLast?_cons_cons,
            List.getLast?_cons_cons]
          cases hl : (serve lfd (deliver it.sigAcc false) its).trace with
          | nil => rw [hl] at j2; simp at j2
          | cons a l => rw [List.getLast?_cons_cons, ← hl]; exact j2

end Forked

/-! ## Where the accept loop reads `g_stop` -/

theorem stopSite_top_set (lfd : Int) (prev : Option Ev) (h : endsIteration prev = true) :
    stopSite lfd prev true (some (.close lfd)) = true := by
  rcases prev with _ | e
  · simp [stopSite, endsIteration]
  · cases e <;> simp_all [stopSite, endsIteration]

theorem stopSite_top_accept (lfd : Int) (prev : Option Ev) (c : Int) (e : Nat)
    (h : endsIteration prev = true) :
    stopSite lfd prev false (some (.accept lfd c e)) = true := by
  rcases prev with _ | e
  · simp [stopSite, endsIteration]
  · cases e <;> simp_all [stopSite, endsIteration]

theorem stopSite_top_sleep (lfd : Int) (prev : Option Ev) (h : endsIteration prev = true) :
    stopSite lfd prev false none = true := by
  rcases prev with _ | e
  · simp [stopSite, endsIteration]
  · cases e <;> simp_all [stopSite, endsIteration]

theorem stopSite_intr_set (lfd l cfd : Int) (h : cfd < 0) :
    stopSite lfd (some (.accept l cfd EINTR)) true (some (.close lfd)) = true := by
  simp [stopSite, h]

theorem stopSite_intr_unset (lfd l cfd : Int) (v : Bool) (h : cfd < 0) :
    stopSite lfd (some (.accept l cfd EINTR)) false (some (.stop v)) = true := by
  simp [stopSite, h]

theorem flagDiscipline_no_stop (lfd : Int) :
    ∀ (l : List Ev) (prev : Option Ev), (∀ e ∈ l, e.isStop = false) →
      flagDiscipline lfd prev l = true := by
  intro l
  induction l with
  | nil => intro prev _; rfl
  | cons a l ih =>
    intro prev h
    have ha := h a (List.mem_cons_self _ _)
    have hl := ih (some a) (fun e he => h e (List.mem_cons_of_mem _ he))
    cases a <;> simp_all [flagDiscipline, Ev.isStop]

theorem flagDiscipline_append (lfd : Int) (b : List Ev) :
    ∀ (a : List Ev) (prev : Option Ev), (∀ e ∈ a, e.isStop = false) → a ≠ [] →
      flagDiscipline lfd prev (a ++ b) = flagDiscipline lfd a.getLast? b := by
  intro a
  induction a with
  | nil => intro prev _ h; exact absurd rfl h
  | cons x a ih =>
    intro prev h _
    have hx := h x (List.mem_cons_self _ _)
    have ha : ∀ e ∈ a, e.isStop = false := fun e he => h e (List.mem_cons_of_mem _ he)
    cases a with
    | nil => cases x <;> simp_all [flagDiscipline, Ev.isStop]
    | cons y a =>
      have := ih (some x) ha (by simp)
      rw [List.getLast?_cons_cons, ← this]
      cases x <;> simp_all [flagDiscipline, Ev.isStop]

namespace Forked

theorem serve_flagDiscipline (lfd : Int) :
    ∀ (script : List Iter) (g : Bool) (prev : Option Ev), endsIteration prev = true →
      flagDiscipline lfd prev (serve lfd g script).trace = true := by
  intro script
  induction script with
  | nil =>
    intro g prev hprev
    rw [serve_nil]
    cases g
    · simp [flagDiscipline, stopSite_top_sleep lfd prev hprev]
    · simp [flagDiscipline, stopSite_top_set lfd prev hprev]
  | cons it its ih =>
    intro g prev hprev
    cases hg : deliver it.sigTop g
    swap
    · rw [serve_stop lfd g it its hg]
      simp [flagDiscipline, stopSite_top_set lfd prev hprev]
    by_cases hc : it.cfd < 0
    · by_cases he : it.errno = EINTR
      · cases hs : it.sigAcc
        · rw [serve_intr_retry lfd g it its hg hc he hs]
          obtain ⟨v, hv⟩ := serve_head lfd false its
          have := ih false (some (.stop false)) rfl
          simp [flagDiscipline, stopSite_top_accept lfd prev _ _ hprev, hv, this,
            stopSite_intr_unset lfd lfd it.cfd v hc]
        · rw [serve_intr_stop lfd g it its hg hc he hs]
          simp [flagDiscipline, stopSite_top_accept lfd prev _ _ hprev,
            stopSite_intr_set lfd lfd it.cfd hc]
      · rw [serve_fail lfd g it its hg hc he]
        have := ih (deliver it.sigAcc false) (some (.log .perrorAccept)) rfl
        simp [flagDiscipline, stopSite_top_accept lfd prev _ _ hprev, this]
    · have hc2 : 0 ≤ it.cfd := by omega
      rcases lt_trichotomy it.pid 0 with hp | hp | hp
      · rw [serve_fork_fail lfd g it its hg hc2 hp]
        have := ih (deliver it.sigAcc false) (some (.close it.cfd)) rfl
        simp [flagDiscipline, stopSite_top_accept lfd prev _ _ hprev, this]
      · rw [serve_child lfd g it its hg hc2 hp]
        have hno : ∀ e ∈ (handle_client it.cfd it.stack (deliver it.sigAcc false) it.reads
            it.writes).trace, e.isStop = false := fun e he =>
          loopOnly_isStop e (handle_client_no_loop_op it.cfd it.reads it.stack
            (deliver it.sigAcc false) it.writes e he)
        cases (handle_client it.cfd it.stack (deliver it.sigAcc false) it.reads
          it.writes).status
        · have h2 : ∀ e ∈ (handle_client it.cfd it.stack (deliver it.sigAcc false) it.reads
              it.writes).trace ++ [Ev.exited 0], e.isStop = false := by
            intro e he
            simp only [List.mem_append, List.mem_singleton] at he
            rcases he with he | rfl
            · exact hno e he
            · rfl
          have := flagDiscipline_no_stop lfd _ (some (.close lfd)) h2
          simp [flagDiscipline, stopSite_top_accept lfd prev _ _ hprev, this]
        · have := flagDiscipline_no_stop lfd _ (some (.close lfd)) hno
          simp [flagDiscipline, stopSite_top_accept lfd prev _ _ hprev, this]
      · rw [serve_parent lfd g it its hg hc2 hp]
        have := ih (deliver it.sigAcc false) (some (.close it.cfd)) rfl
        simp [flagDiscipline, stopSite_top_accept lfd prev _ _ hprev, this]

end Forked

namespace Blocking

theorem inline_serve_flagDiscipline (lfd : Int) :
    ∀ (script : List Iter) (buf : List Byte) (g : Bool) (prev : Option Ev),
      endsIteration prev = true →
      flagDiscipline lfd prev (serve lfd buf g script).trace = true := by
  intro script
  induction script with
  | nil =>
    intro buf g prev hprev
    rw [inline_serve_nil]
    cases g
    · simp [flagDiscipline, stopSite_top_sleep lfd prev hprev]
    · simp [flagDiscipline, stopSite_top_set lfd prev hprev]
  | cons it its ih =>
    intro buf g prev hprev
    cases hg : deliver it.sigTop g
    swap
    · rw [inline_serve_stop lfd buf g it its hg]
      simp [flagDiscipline, stopSite_top_set lfd prev hprev]
    by_cases hc : it.cfd < 0
    · by_cases he : it.errno = EINTR
      · cases hs : it.sigAcc
        · rw [inline_serve_intr_retry lfd buf g it its hg hc he hs]
          obtain ⟨v, hv⟩ := inline_serve_head lfd buf false its
          have := ih buf false (some (.stop false)) rfl
          simp [flagDiscipline, stopSite_top_accept lfd prev _ _ hprev, hv, this,
            stopSite_intr_unset lfd lfd it.cfd v hc]
        · rw [inline_serve_intr_stop lfd buf g it its hg hc he hs]
          simp [flagDiscipline, stopSite_top_accept lfd prev _ _ hprev,
            stopSite_intr_set lfd lfd it.cfd hc]
      · rw [inline_serve_fail lfd buf g it its hg hc he]
        have := ih buf (deliver it.sigAcc false) (some (.log .perrorAccept)) rfl
        simp [flagDiscipline, stopSite_top_accept lfd prev _ _ hprev, this]
    · have hc2 : 0 ≤ it.cfd := by omega
      rw [serve_conn lfd buf g it its hg hc2]
      have hno : ∀ e ∈ (echo_loop it.cfd buf (deliver it.sigAcc false) it.reads
          it.writes).trace, e.isStop = false := fun e he =>
        loopOnly_isStop e (echo_loop_no_loop_op it.cfd it.reads buf
          (deliver it.sigAcc false) it.writes e he)
      obtain ⟨sh, _⟩ := echo_loop_shape it.cfd it.reads buf (deliver it.sigAcc false)
        it.writes
      cases hst : (echo_loop it.cfd buf (deliver it.sigAcc false) it.reads
        it.writes).status
      · obtain ⟨pre, t, logs, e1, _, _, _⟩ := sh hst
        have hne : (echo_loop it.cfd buf (deliver it.sigAcc false) it.reads
            it.writes).trace ≠ [] := by
          rw [e1]; simp
        have hlast : (echo_loop it.cfd buf (deliver it.sigAcc false) it.reads
            it.writes).trace.getLast? = some (.log .clientDisconnected) := by
          rw [e1, show pre ++ t :: (logs ++ [Ev.close it.cfd, Ev.log Msg.clientDisconnected]) =
            (pre ++ t :: logs ++ [Ev.close it.cfd]) ++ [Ev.log Msg.clientDisconnected] by simp]
          exact List.getLast?_concat _
        have h1 := flagDiscipline_append lfd
          (serve lfd (echo_loop it.cfd buf (deliver it.sigAcc false) it.reads it.writes).buf
            (echo_loop it.cfd buf (deliver it.sigAcc false) it.reads it.writes).g its).trace
          _ (some (.log .clientConnected)) hno hne
        rw [hlast] at h1
        have h2 := ih (echo_loop it.cfd buf (deliver it.sigAcc false) it.reads it.writes).buf
          (echo_loop it.cfd buf (deliver it.sigAcc false) it.reads it.writes).g
          (some (.log .clientDisconnected)) rfl
        simp only [List.cons_append, List.nil_append, List.append_assoc]
        simp only [flagDiscipline, stopSite_top_accept lfd prev _ _ hprev, List.head?_cons,
          Bool.true_and, h1, h2]
      · have := flagDiscipline_no_stop lfd _ (some (.log .clientConnected)) hno
        simp [flagDiscipline, stopSite_top_accept lfd prev _ _ hprev, this]

end Blocking

/-! ## Reaping -/

theorem reap_none (t : ProcTable) (h : reap t = none) :
    t.filter (fun c => c.zombie) = [] ∧ t.filter (fun c => !c.zombie) = t := by
  induction t with
  | nil => simp
  | cons c t ih =>
    cases hz : c.zombie
    · simp only [reap, hz, Bool.false_eq_true, if_false] at h
      cases hr : reap t with
      | none =>
        obtain ⟨h1, h2⟩ := ih hr
        simp [List.filter_cons, hz, h1, h2]
      | some x => rw [hr] at h; simp at h
    · simp [reap, hz] at h

theorem reap_some (t : ProcTable) (p : Nat) (t1 : ProcTable) (h : reap t = some (p, t1)) :
    (t.filter (fun c => c.zombie)).map Child.pid =
      p :: (t1.filter (fun c => c.zombie)).map Child.pid ∧
    t1.filter (fun c => !c.zombie) = t.filter (fun c => !c.zombie) ∧
    (∀ c ∈ t1, c ∈ t) ∧ (∃ c ∈ t, c.pid = p) := by
  induction t generalizing p t1 with
  | nil => simp [reap] at h
  | cons c t ih =>
    cases hz : c.zombie
    · simp only [reap, hz, Bool.false_eq_true, if_false] at h
      cases hr : reap t with
      | none => rw [hr] at h; simp at h
      | some x =>
        obtain ⟨q, t2⟩ := x
        rw [hr] at h
        simp only [Option.some.injEq, Prod.mk.injEq] at h
        obtain ⟨rfl, rfl⟩ := h
        obtain ⟨h1, h2, h3, c2, hc2, hc3⟩ := ih q t2 hr
        refine ⟨?_, ?_, ?_, ⟨c2, List.mem_cons_of_mem _ hc2, hc3⟩⟩
        · simp [List.filter_cons, hz, h1]
        · simp [List.filter_cons, hz, h2]
        · intro d hd
          simp only [List.mem_cons] at hd ⊢
          rcases hd with rfl | hd
          · exact Or.inl rfl
          · exact Or.inr (h3 d hd)
    · simp only [reap, hz, if_true, Option.some.injEq, Prod.mk.injEq] at h
      obtain ⟨rfl, rfl⟩ := h
      refine ⟨by simp [List.filter_cons, hz], by simp [List.filter_cons, hz],
        fun d hd => List.mem_cons_of_mem _ hd, ⟨c, List.mem_cons_self _ _, rfl⟩⟩

/-- The loop of `on_sigchld` ends as soon as it has more fuel than there are
terminated workers: it has then reaped each of them, in the order of the table,
kept the running ones, made one last call that returned `0` or `-1`, and has
never been put to sleep. -/
theorem on_sigchld_loop_spec :
    ∀ (fuel : Nat) (t : ProcTable), (∀ c ∈ t, 0 < c.pid) →
      (t.filter (fun c => c.zombie)).length < fuel →
      on_sigchld_loop fuel t = some ⟨t.filter (fun c => !c.zombie),
        (t.filter (fun c => c.zombie)).map (fun c => (c.pid : Int)) ++ [lastRet t],
        false⟩ := by
  intro fuel
  induction fuel with
  | zero => intro t _ h; omega
  | succ fuel ih =>
    intro t hpid hlen
    cases hr : reap t with
    | none =>
      obtain ⟨h1, h2⟩ := reap_none t hr
      by_cases he : t.isEmpty = true
      · simp [on_sigchld_loop, waitpid_any, hr, he, h1, h2, lastRet]
      · simp [on_sigchld_loop, waitpid_any, hr, he, h1, h2, lastRet]
    | some x =>
      obtain ⟨p, t1⟩ := x
      obtain ⟨h1, h2, h3, c, hc, hcp⟩ := reap_some t p t1 hr
      have hp : 0 < p := by rw [← hcp]; exact hpid c hc
      have hlen1 : (t1.filter (fun c => c.zombie)).length < fuel := by
        have := congrArg List.length h1
        simp only [List.length_map, List.length_cons] at this
        omega
      have hr1 := ih t1 (fun d hd => hpid d (h3 d hd)) hlen1
      have hpi : (0 : Int) < (p : Int) := by exact_mod_cast hp
      have h1i : (t.filter (fun c => c.zombie)).map (fun c => (c.pid : Int)) =
          (p : Int) :: (t1.filter (fun c => c.zombie)).map (fun c => (c.pid : Int)) := by
        have := congrArg (List.map (fun n : Nat => (n : Int))) h1
        simpa [List.map_map, Function.comp] using this
      have hl : lastRet t1 = lastRet t := by
        unfold lastRet
        rw [h2]
      simp only [on_sigchld_loop, waitpid_any, hr, gt_iff_lt, hpi, if_true, hr1, h2, h1i,
        List.cons_append, hl]

theorem runProc_append (es fs : List PEv) :
    ∀ t : ProcTable, runProc t (es ++ fs) =
      match runProc t es with
      | none => none
      | some t1 => runProc t1 fs := by
  induction es with
  | nil => intro t; rfl
  | cons e es ih =>
    intro t
    simp only [List.cons_append, runProc]
    cases stepProc t e with
    | none => rfl
    | some t1 => exact ih t1

theorem on_sigchld_total (t : ProcTable) (hpid : ∀ c ∈ t, 0 < c.pid) :
    on_sigchld t = some ⟨t.filter (fun c => !c.zombie),
      (t.filter (fun c => c.zombie)).map (fun c => (c.pid : Int)) ++ [lastRet t],
      false⟩ :=
  on_sigchld_loop_spec (t.length + 1) t hpid
    (Nat.lt_succ_of_le (List.length_filter_le _ _))

theorem runProc_total (es : List PEv) :
    ∀ t : ProcTable, (∀ c ∈ t, 0 < c.pid) → (∀ e ∈ es, e.badSpawn = false) →
      ∃ t1, runProc t es = some t1 ∧ ∀ c ∈ t1, 0 < c.pid := by
  induction es with
  | nil => intro t h _; exact ⟨t, rfl, h⟩
  | cons e es ih =>
    intro t hpid hes
    have he := hes e (List.mem_cons_self _ _)
    have hes2 : ∀ x ∈ es, x.badSpawn = false := fun x hx => hes x (List.mem_cons_of_mem _ hx)
    cases e with
    | spawn p =>
      simp only [PEv.badSpawn, decide_eq_false_iff_not] at he
      have : ∀ c ∈ t ++ [(⟨p, false⟩ : Child)], 0 < c.pid := by
        intro c hc
        simp only [List.mem_append, List.mem_singleton] at hc
        rcases hc with hc | rfl
        · exact hpid c hc
        · exact Nat.pos_of_ne_zero he
      simpa [runProc, stepProc] using ih _ this hes2
    | terminate p =>
      have : ∀ c ∈ t.map (fun c => if c.pid = p then { c with zombie := true } else c),
          0 < c.pid := by
        intro c hc
        simp only [List.mem_map] at hc
        obtain ⟨d, hd, rfl⟩ := hc
        by_cases hq : d.pid = p
        · simp only [hq, if_true]; rw [← hq]; exact hpid d hd
        · simp only [hq, if_false]; exact hpid d hd
      simpa [runProc, stepProc] using ih _ this hes2
    | sigchld =>
      have hr := on_sigchld_total t hpid
      have : ∀ c ∈ t.filter (fun c => !c.zombie), 0 < c.pid :=
        fun c hc => hpid c (List.mem_of_mem_filter hc)
      simpa [runProc, stepProc, hr] using ih _ this hes2

/-! ## The echo handler: claims -/

/-- C1: when a connection delivers the byte chunks of `rs` (reads of between one
and 4096 bytes, possibly with interrupted reads in between) followed by a
zero-byte read, and the writes of every chunk are chunked in any way into
partial writes and interrupted calls, the handler runs to its `close` and the
bytes it has written to the connection are exactly the concatenation of the
chunks, in order; this holds for `handle_client` of the forked server and for
the inline echo loop of the blocking server. -/
theorem echo_returns_the_bytes_read (cfd : Int) (buf : List Byte) (g : Bool)
    (rs : List ReadOut) (fin : ReadOut) (moreR : List ReadOut)
    (wss : List (List WriteOut)) (moreW : List WriteOut)
    (hrs : ∀ r ∈ rs, r.benign = true) (hfin : fin.res = .ok [])
    (hws : List.Forall₂ (fun bs ws => chunking bs.length ws = true) (payload rs) wss) :
    ((Forked.handle_client cfd buf g (rs ++ fin :: moreR)
        (wss.flatten ++ moreW)).status = .closed ∧
      wire cfd (Forked.handle_client cfd buf g (rs ++ fin :: moreR)
        (wss.flatten ++ moreW)).trace = (payload rs).flatten) ∧
    ((Blocking.echo_loop cfd buf g (rs ++ fin :: moreR)
        (wss.flatten ++ moreW)).status = .closed ∧
      wire cfd (Blocking.echo_loop cfd buf g (rs ++ fin :: moreR)
        (wss.flatten ++ moreW)).trace = (payload rs).flatten) := by
  obtain ⟨f1, f2, _, _⟩ := Forked.handle_client_echo cfd fin moreR moreW hfin rs wss buf g hrs hws
  obtain ⟨b1, b2, _, _⟩ := Blocking.echo_loop_echo cfd fin moreR moreW hfin rs wss buf g hrs hws
  exact ⟨⟨f1, f2⟩, ⟨b1, b2⟩⟩

theorem echo_returns_the_bytes_read_witness :
    wire 5 (Forked.handle_client 5 [7, 7, 7, 7] false
      ([⟨false, .ok [1, 2, 3]⟩, ⟨true, .fail 4⟩, ⟨false, .ok [9, 8]⟩] ++
        ⟨false, .ok []⟩ :: [])
      ([[⟨false, .ok 1⟩, ⟨false, .fail 4⟩, ⟨false, .ok 0⟩, ⟨true, .ok 2⟩],
        [⟨false, .ok 2⟩]].flatten ++ [])).trace = [1, 2, 3, 9, 8] ∧
    wire 5 (Blocking.echo_loop 5 [7, 7, 7, 7] false
      ([⟨false, .ok [1, 2, 3]⟩, ⟨true, .fail 4⟩, ⟨false, .ok [9, 8]⟩] ++
        ⟨false, .ok []⟩ :: [])
      ([[⟨false, .ok 1⟩, ⟨false, .fail 4⟩, ⟨false, .ok 0⟩, ⟨true, .ok 2⟩],
        [⟨false, .ok 2⟩]].flatten ++ [])).trace = [1, 2, 3, 9, 8] := by
  have h := echo_returns_the_bytes_read 5 [7, 7, 7, 7] false
    [⟨false, .ok [1, 2, 3]⟩, ⟨true, .fail 4⟩, ⟨false, .ok [9, 8]⟩] ⟨false, .ok []⟩ []
    [[⟨false, .ok 1⟩, ⟨false, .fail 4⟩, ⟨false, .ok 0⟩, ⟨true, .ok 2⟩], [⟨false, .ok 2⟩]] []
    (by decide) rfl (by decide)
  exact ⟨h.1.2, h.2.2⟩

/-- C2: after a read of `n > 0` bytes `bs`, a write at offset `off` that returns
`m < n - off` is no error: the loop goes on from offset `off + m`, and the next
write it issues starts at offset `off + m` with length `n - off - m` and is given
exactly the bytes `bs[off+m ..)`.  When the kernel never reports more bytes than
it was asked to write, a loop that ends without a write failure ends with
`off = n`, and whatever way the loop ends the bytes it has written are
`bs[0 .. off)`: nothing is skipped, repeated or, when it ends without failure,
truncated. -/
theorem short_write_is_resumed (cfd : Int) (old bs : List Byte) (g : Bool)
    (w : WriteOut) (ws : List WriteOut) (off m : Nat)
    (hoff : off < bs.length) (hw : w.res = .ok m) (hm : m < bs.length - off) :
    write_loop cfd (store old bs) bs.length off g (w :: ws) =
      { write_loop cfd (store old bs) bs.length (off + m) (deliver w.sig g) ws with
        trace := Ev.write cfd off (bs.length - off) (bs.drop off) (.ok m) ::
          (write_loop cfd (store old bs) bs.length (off + m) (deliver w.sig g) ws).trace } ∧
    (∀ w2 ws2, ws = w2 :: ws2 →
      (write_loop cfd (store old bs) bs.length (off + m) (deliver w.sig g) ws).trace.head? =
        some (Ev.write cfd (off + m) (bs.length - off - m) (bs.drop (off + m)) w2.res)) ∧
    (∀ (g0 : Bool) (ws0 : List WriteOut),
      (∀ e ∈ (write_loop cfd (store old bs) bs.length 0 g0 ws0).trace, e.within = true) →
      (write_loop cfd (store old bs) bs.length 0 g0 ws0).off ≤ bs.length ∧
      wire cfd (write_loop cfd (store old bs) bs.length 0 g0 ws0).trace =
        bs.take (write_loop cfd (store old bs) bs.length 0 g0 ws0).off ∧
      ((write_loop cfd (store old bs) bs.length 0 g0 ws0).status = .flushed →
        (write_loop cfd (store old bs) bs.length 0 g0 ws0).off = bs.length ∧
        wire cfd (write_loop cfd (store old bs) bs.length 0 g0 ws0).trace = bs)) := by
  refine ⟨?_, ?_, ?_⟩
  · rw [write_loop_ok cfd (store old bs) bs.length off g w ws m hoff hw,
      store_drop_take old bs off (by omega)]
  · intro w2 ws2 hws
    subst hws
    rw [write_loop_head cfd (store old bs) bs.length (off + m) _ w2 ws2 (by omega)]
    have e1 : bs.length - off - m = bs.length - (off + m) := by omega
    rw [e1, store_drop_take old bs (off + m) (by omega)]
  · intro g0 ws0 hin
    obtain ⟨_, h2, h3, _, h5⟩ :=
      write_loop_inv cfd (store old bs) bs.length ws0 0 g0 (Nat.zero_le _) hin
    have h6 : wire cfd (write_loop cfd (store old bs) bs.length 0 g0 ws0).trace =
        bs.take (write_loop cfd (store old bs) bs.length 0 g0 ws0).off := by
      rw [h5, List.drop_zero, Nat.sub_zero]
      exact store_take_le old bs _ h2
    refine ⟨h2, h6, ?_⟩
    intro hf
    refine ⟨h3 hf, ?_⟩
    rw [h6, h3 hf, List.take_length]

theorem short_write_is_resumed_witness :
    (write_loop 5 (store [7, 7, 7, 7] [1, 2, 3]) 3 0 false
      [⟨false, .ok 1⟩, ⟨false, .ok 2⟩]).trace.head? =
      some (Ev.write 5 0 3 [1, 2, 3] (.ok 1)) ∧
    (write_loop 5 (store [7, 7, 7, 7] [1, 2, 3]) 3 (0 + 1) (deliver false false)
      [⟨false, .ok 2⟩]).trace.head? = some (Ev.write 5 1 2 [2, 3] (.ok 2)) ∧
    wire 5 (write_loop 5 (store [7, 7, 7, 7] [1, 2, 3]) 3 0 false
      [⟨false, .ok 1⟩, ⟨false, .ok 2⟩]).trace = [1, 2, 3] := by
  have h := short_write_is_resumed 5 [7, 7, 7, 7] [1, 2, 3] false ⟨false, .ok 1⟩
    [⟨false, .ok 2⟩] 0 1 (by decide) rfl (by decide)
  refine ⟨?_, ?_, ?_⟩
  · have h1 := h.1
    simp only [List.length_cons, List.length_nil] at h1
    rw [h1]
    rfl
  · exact h.2.1 ⟨false, .ok 2⟩ [] rfl
  · exact ((h.2.2 false [⟨false, .ok 1⟩, ⟨false, .ok 2⟩] (by decide)).2.2 (by decide)).2

/-- C4: a run of the echo handler that terminates ends with the event that made
it terminate (a zero-byte read, a read that failed with an error other than
`EINTR`, or a write that failed with an error other than `EINTR`), followed by
diagnostics only and then by `close` on the connection; no event before that is
a `close`, so the connection is closed exactly once and no read or write follows
the `close` (in the blocking server one diagnostic follows it).  A run that does
not terminate never calls `close`. -/
theorem handler_closes_once_and_last (cfd : Int) (buf : List Byte) (g : Bool)
    (rs : List ReadOut) (ws : List WriteOut) :
    ((Forked.handle_client cfd buf g rs ws).status = .closed →
      (∃ pre t logs,
        (Forked.handle_client cfd buf g rs ws).trace = pre ++ t :: (logs ++ [.close cfd]) ∧
        t.terminal = true ∧ (∀ e ∈ logs, e.isLog = true) ∧ ∀ e ∈ pre, e.plain = true) ∧
      (Forked.handle_client cfd buf g rs ws).trace.countP Ev.isClose = 1 ∧
      (Forked.handle_client cfd buf g rs ws).trace.getLast? = some (.close cfd)) ∧
    ((Blocking.echo_loop cfd buf g rs ws).status = .closed →
      (∃ pre t logs,
        (Blocking.echo_loop cfd buf g rs ws).trace =
          pre ++ t :: (logs ++ [.close cfd, .log .clientDisconnected]) ∧
        t.terminal = true ∧ (∀ e ∈ logs, e.isLog = true) ∧ ∀ e ∈ pre, e.plain = true) ∧
      (Blocking.echo_loop cfd buf g rs ws).trace.countP Ev.isClose = 1 ∧
      (Blocking.echo_loop cfd buf g rs ws).trace.getLast? =
        some (.log .clientDisconnected)) ∧
    ((Forked.handle_client cfd buf g rs ws).status = .blocked →
      (Forked.handle_client cfd buf g rs ws).trace.countP Ev.isClose = 0) ∧
    ((Blocking.echo_loop cfd buf g rs ws).status = .blocked →
      (Blocking.echo_loop cfd buf g rs ws).trace.countP Ev.isClose = 0) := by
  have plain_no_close : ∀ l : List Ev, (∀ e ∈ l, e.plain = true) →
      l.countP Ev.isClose = 0 := by
    intro l hl
    rw [List.countP_eq_zero]
    intro e he
    have := hl e he
    simp only [Ev.plain, Bool.and_eq_true, Bool.not_eq_true'] at this
    simp [this.1]
  have log_no_close : ∀ l : List Ev, (∀ e ∈ l, e.isLog = true) →
      l.countP Ev.isClose = 0 := by
    intro l hl
    rw [List.countP_eq_zero]
    intro e he
    have := hl e he
    cases e <;> simp_all [Ev.isLog, Ev.isClose]
  have term_no_close : ∀ t : Ev, t.terminal = true → t.isClose = false := by
    intro t ht
    cases t <;> simp_all [Ev.terminal, Ev.isClose]
  obtain ⟨f1, f2⟩ := Forked.handle_client_shape cfd rs buf g ws
  obtain ⟨b1, b2⟩ := Blocking.echo_loop_shape cfd rs buf g ws
  refine ⟨?_, ?_, fun h => plain_no_close _ (f2 h), fun h => plain_no_close _ (b2 h)⟩
  · intro hc
    obtain ⟨pre, t, logs, e1, e2, e3, e4⟩ := f1 hc
    refine ⟨⟨pre, t, logs, e1, e2, e3, e4⟩, ?_, ?_⟩
    · rw [e1, List.countP_append, List.countP_cons, List.countP_append,
        plain_no_close pre e4, log_no_close logs e3, term_no_close t e2]
      simp [List.countP_cons, Ev.isClose]
    · rw [e1, show pre ++ t :: (logs ++ [Ev.close cfd]) = (pre ++ t :: logs) ++ [Ev.close cfd]
        by simp]
      exact List.getLast?_concat _
  · intro hc
    obtain ⟨pre, t, logs, e1, e2, e3, e4⟩ := b1 hc
    refine ⟨⟨pre, t, logs, e1, e2, e3, e4⟩, ?_, ?_⟩
    · rw [e1, List.countP_append, List.countP_cons, List.countP_append,
        plain_no_close pre e4, log_no_close logs e3, term_no_close t e2]
      simp [List.countP_cons, Ev.isClose]
    · rw [e1, show pre ++ t :: (logs ++ [Ev.close cfd, Ev.log Msg.clientDisconnected]) =
        (pre ++ t :: logs ++ [Ev.close cfd]) ++ [Ev.log Msg.clientDisconnected] by simp]
      exact List.getLast?_concat _

theorem handler_closes_once_and_last_witness :
    ((Forked.handle_client 5 [] false [⟨false, .ok [1, 2]⟩, ⟨false, .fail 104⟩]
        [⟨false, .ok 2⟩]).trace.countP Ev.isClose = 1 ∧
      (Forked.handle_client 5 [] false [⟨false, .ok [1, 2]⟩, ⟨false, .fail 104⟩]
        [⟨false, .ok 2⟩]).trace.getLast? = some (.close 5)) ∧
    ((Blocking.echo_loop 5 [] false [⟨false, .ok [1, 2]⟩, ⟨false, .ok []⟩]
        [⟨false, .fail 32⟩]).trace.countP Ev.isClose = 1 ∧
      (Blocking.echo_loop 5 [] false [⟨false, .ok [1, 2]⟩, ⟨false, .ok []⟩]
        [⟨false, .fail 32⟩]).trace.getLast? = some (.log .clientDisconnected)) ∧
    (Forked.handle_client 5 [] false [⟨false, .ok [1, 2]⟩] [⟨false, .ok 1⟩]).trace.countP
      Ev.isClose = 0 ∧
    (Blocking.echo_loop 5 [] false [⟨false, .ok [1, 2]⟩] [⟨false, .ok 1⟩]).trace.countP
      Ev.isClose = 0 :=
  ⟨((handler_closes_once_and_last 5 [] false [⟨false, .ok [1, 2]⟩, ⟨false, .fail 104⟩]
      [⟨false, .ok 2⟩]).1 (by decide)).2,
    ((handler_closes_once_and_last 5 [] false [⟨false, .ok [1, 2]⟩, ⟨false, .ok []⟩]
      [⟨false, .fail 32⟩]).2.1 (by decide)).2,
    (handler_closes_once_and_last 5 [] false [⟨false, .ok [1, 2]⟩]
      [⟨false, .ok 1⟩]).2.2.1 (by decide),
    (handler_closes_once_and_last 5 [] false [⟨false, .ok [1, 2]⟩]
      [⟨false, .ok 1⟩]).2.2.2 (by decide)⟩

/-- C8: the echo handler does not depend on the shutdown flag.  Two runs on the
same sequence of read and write outcomes, which differ in the initial value of
`g_stop` and in the calls during which `on_stop` ran, end in the same way and
perform the same sequence of reads, writes, diagnostics and `close`, hence echo
the same bytes; and no run ever reads `g_stop`.  This holds for `handle_client`
and for the inline echo loop of the blocking server. -/
theorem handler_ignores_the_shutdown_flag (cfd : Int) (buf : List Byte) (g g2 : Bool)
    (rs rs2 : List ReadOut) (ws ws2 : List WriteOut)
    (hr : rs.map ReadOut.res = rs2.map ReadOut.res)
    (hw : ws.map WriteOut.res = ws2.map WriteOut.res) :
    ((Forked.handle_client cfd buf g rs ws).status =
        (Forked.handle_client cfd buf g2 rs2 ws2).status ∧
      (Forked.handle_client cfd buf g rs ws).trace =
        (Forked.handle_client cfd buf g2 rs2 ws2).trace ∧
      wire cfd (Forked.handle_client cfd buf g rs ws).trace =
        wire cfd (Forked.handle_client cfd buf g2 rs2 ws2).trace ∧
      ∀ e ∈ (Forked.handle_client cfd buf g rs ws).trace, e.isStop = false) ∧
    ((Blocking.echo_loop cfd buf g rs ws).status =
        (Blocking.echo_loop cfd buf g2 rs2 ws2).status ∧
      (Blocking.echo_loop cfd buf g rs ws).trace =
        (Blocking.echo_loop cfd buf g2 rs2 ws2).trace ∧
      wire cfd (Blocking.echo_loop cfd buf g rs ws).trace =
        wire cfd (Blocking.echo_loop cfd buf g2 rs2 ws2).trace ∧
      ∀ e ∈ (Blocking.echo_loop cfd buf g rs ws).trace, e.isStop = false) := by
  obtain ⟨f1, f2, _⟩ := Forked.handle_client_indep cfd rs rs2 buf g g2 ws ws2 hr hw
  obtain ⟨b1, b2, _⟩ := Blocking.echo_loop_indep cfd rs rs2 buf g g2 ws ws2 hr hw
  exact ⟨⟨f1, f2, by rw [f2], fun e he =>
      loopOnly_isStop e (Forked.handle_client_no_loop_op cfd rs buf g ws e he)⟩,
    ⟨b1, b2, by rw [b2], fun e he =>
      loopOnly_isStop e (Blocking.echo_loop_no_loop_op cfd rs buf g ws e he)⟩⟩

theorem handler_ignores_the_shutdown_flag_witness :
    (Forked.handle_client 5 [] false
        [⟨false, .ok [1, 2]⟩, ⟨false, .fail 4⟩, ⟨false, .ok []⟩]
        [⟨false, .ok 1⟩, ⟨false, .ok 1⟩]).trace =
      (Forked.handle_client 5 [] true
        [⟨false, .ok [1, 2]⟩, ⟨true, .fail 4⟩, ⟨false, .ok []⟩]
        [⟨true, .ok 1⟩, ⟨false, .ok 1⟩]).trace ∧
    (Blocking.echo_loop 5 [] false
        [⟨false, .ok [1, 2]⟩, ⟨false, .fail 4⟩, ⟨false, .ok []⟩]
        [⟨false, .ok 1⟩, ⟨false, .ok 1⟩]).trace =
      (Blocking.echo_loop 5 [] true
        [⟨false, .ok [1, 2]⟩, ⟨true, .fail 4⟩, ⟨false, .ok []⟩]
        [⟨true, .ok 1⟩, ⟨false, .ok 1⟩]).trace :=
  ⟨(handler_ignores_the_shutdown_flag 5 [] false true
      [⟨false, .ok [1, 2]⟩, ⟨false, .fail 4⟩, ⟨false, .ok []⟩]
      [⟨false, .ok [1, 2]⟩, ⟨true, .fail 4⟩, ⟨false, .ok []⟩]
      [⟨false, .ok 1⟩, ⟨false, .ok 1⟩] [⟨true, .ok 1⟩, ⟨false, .ok 1⟩]
      (by decide) (by decide)).1.2.1,
    (handler_ignores_the_shutdown_flag 5 [] false true
      [⟨false, .ok [1, 2]⟩, ⟨false, .fail 4⟩, ⟨false, .ok []⟩]
      [⟨false, .ok [1, 2]⟩, ⟨true, .fail 4⟩, ⟨false, .ok []⟩]
      [⟨false, .ok 1⟩, ⟨false, .ok 1⟩] [⟨true, .ok 1⟩, ⟨false, .ok 1⟩]
      (by decide) (by decide)).2.2.1⟩

/-- C10: for `n > 0` and any script of write outcomes in which every successful
write of the run returns `m` with `1 <= m <= n - off`, the write loop performs at
most `n` successful writes, every write it issues starts at an offset below `n`
and ends exactly at `n` (so it stays inside `buf[0..n)`), the final offset is at
most `n`, and the loop terminates as soon as the script holds `n` successful
outcomes, however many interrupted calls lie in between.  The bound `m >= 1` is
needed: when the kernel answers `0` to `k` writes in a row, the loop issues the
identical write `k` times, stays at offset `0` and has not terminated. -/
theorem write_loop_terminates_with_progress (cfd : Int) (buf : List Byte) (n : Nat)
    (g : Bool) (ws : List WriteOut) (hn : 0 < n)
    (hgood : ∀ e ∈ (write_loop cfd buf n 0 g ws).trace,
      e.within = true ∧ e.progress = true) :
    (write_loop cfd buf n 0 g ws).trace.countP Ev.isOkWrite ≤ n ∧
    (∀ e ∈ (write_loop cfd buf n 0 g ws).trace, e.inside n = true) ∧
    (write_loop cfd buf n 0 g ws).off ≤ n ∧
    (n ≤ ws.countP WriteOut.isOk → (write_loop cfd buf n 0 g ws).status ≠ .blocked) ∧
    (∀ k : Nat, write_loop cfd buf n 0 g (List.replicate k ⟨false, .ok 0⟩) =
      ⟨.blocked, 0, g, List.replicate k (Ev.write cfd 0 n (buf.take n) (.ok 0)), []⟩) := by
  obtain ⟨c1, c2, c3⟩ := write_loop_count cfd buf n ws 0 g (Nat.zero_le _) hgood
  obtain ⟨_, i2, _, i4, _⟩ := write_loop_inv cfd buf n ws 0 g (Nat.zero_le _)
    (fun e he => (hgood e he).1)
  refine ⟨by omega, c2, i2, ?_, ?_⟩
  · intro hle hb
    obtain ⟨_, h5⟩ := c3 hb
    have := i4 (by rw [hb]; simp)
    omega
  · intro k
    have := write_loop_zero cfd buf n 0 hn g k
    simpa using this

theorem write_loop_terminates_with_progress_witness :
    (write_loop 5 [1, 2, 3, 7] 3 0 false
      [⟨false, .ok 1⟩, ⟨false, .fail 4⟩, ⟨false, .ok 2⟩]).trace.countP Ev.isOkWrite ≤ 3 ∧
    (write_loop 5 [1, 2, 3, 7] 3 0 false
      [⟨false, .ok 1⟩, ⟨false, .fail 4⟩, ⟨false, .ok 2⟩]).off ≤ 3 :=
  ⟨(write_loop_terminates_with_progress 5 [1, 2, 3, 7] 3 false
      [⟨false, .ok 1⟩, ⟨false, .fail 4⟩, ⟨false, .ok 2⟩] (by decide) (by decide)).1,
    (write_loop_terminates_with_progress 5 [1, 2, 3, 7] 3 false
      [⟨false, .ok 1⟩, ⟨false, .fail 4⟩, ⟨false, .ok 2⟩] (by decide) (by decide)).2.2.1⟩

/-! ## The accept loop: claims -/

/-- C3, as stated, fails: the loop condition is evaluated with the flag unset,
`on_stop` then runs before `accept` is entered, and `accept` fails with an error
other than `EINTR` (here `EMFILE`, 24).  The failure is logged, but `accept` is
not called again although another connection is waiting: `continue` leads to
the loop condition `!g_stop`, which ends the loop, and `main` returns `0`.  This
holds for both servers. -/
theorem accept_failure_may_end_the_server :
    (Forked.serve 3 false [⟨false, true, -1, 24, 0, [], [], []⟩,
        ⟨false, false, 5, 0, 77, [], [], []⟩] =
      ⟨.returned 0, true, [.stop false, .accept 3 (-1) 24, .log .perrorAccept,
        .stop true, .close 3, .log .bye]⟩ ∧
      failedAcceptsRetried (Forked.serve 3 false [⟨false, true, -1, 24, 0, [], [], []⟩,
        ⟨false, false, 5, 0, 77, [], [], []⟩]).trace = false) ∧
    (Blocking.serve 3 [] false [⟨false, true, -1, 24, [], []⟩,
        ⟨false, false, 5, 0, [⟨false, .ok []⟩], []⟩] =
      ⟨.returned 0, true, [.stop false, .accept 3 (-1) 24, .log .perrorAccept,
        .stop true, .close 3, .log .bye]⟩ ∧
      failedAcceptsRetried (Blocking.serve 3 [] false [⟨false, true, -1, 24, [], []⟩,
        ⟨false, false, 5, 0, [⟨false, .ok []⟩], []⟩]).trace = false) := by
  decide

/-- C3, amended: in both accept loops, for every failed `accept`: if it was
interrupted and the shutdown flag is set, the loop ends, no further `accept` is
called, the listening endpoint is closed and `main` returns `0`; if it was
interrupted and the flag is unset, or if it failed for any other reason (which
is logged), control goes back to the loop condition and the rest of the run is
the accept loop started afresh.  There, `accept` is called again when the flag
is still unset, and the loop ends cleanly (the endpoint is closed and `main`
returns `0`) when the flag has been set in the meantime. -/
theorem accept_failure_goes_back_to_the_loop_condition (lfd : Int) (buf : List Byte)
    (g : Bool) (itF : Forked.Iter) (itsF : List Forked.Iter) (itB : Blocking.Iter)
    (itsB : List Blocking.Iter)
    (hgF : deliver itF.sigTop g = false) (hcF : itF.cfd < 0)
    (hgB : deliver itB.sigTop g = false) (hcB : itB.cfd < 0) :
    ((itF.errno = EINTR → itF.sigAcc = true →
        Forked.serve lfd g (itF :: itsF) =
          ⟨.returned 0, true, [.stop false, .accept lfd itF.cfd EINTR, .stop true,
            .close lfd, .log .bye]⟩) ∧
      (itF.errno = EINTR → itF.sigAcc = false →
        Forked.serve lfd g (itF :: itsF) =
          { Forked.serve lfd false itsF with
            trace := [.stop false, .accept lfd itF.cfd EINTR, .stop false] ++
              (Forked.serve lfd false itsF).trace }) ∧
      (itF.errno ≠ EINTR →
        Forked.serve lfd g (itF :: itsF) =
          { Forked.serve lfd (deliver itF.sigAcc false) itsF with
            trace := [.stop false, .accept lfd itF.cfd itF.errno, .log .perrorAccept] ++
              (Forked.serve lfd (deliver itF.sigAcc false) itsF).trace }) ∧
      (∀ (g1 : Bool) (it2 : Forked.Iter) (its2 : List Forked.Iter),
        (deliver it2.sigTop g1 = false →
          (Forked.serve lfd g1 (it2 :: its2)).trace.take 2 =
            [.stop false, .accept lfd it2.cfd it2.errno]) ∧
        (deliver it2.sigTop g1 = true →
          Forked.serve lfd g1 (it2 :: its2) =
            ⟨.returned 0, true, [.stop true, .close lfd, .log .bye]⟩))) ∧
    ((itB.errno = EINTR → itB.sigAcc = true →
        Blocking.serve lfd buf g (itB :: itsB) =
          ⟨.returned 0, true, [.stop false, .accept lfd itB.cfd EINTR, .stop true,
            .close lfd, .log .bye]⟩) ∧
      (itB.errno = EINTR → itB.sigAcc = false →
        Blocking.serve lfd buf g (itB :: itsB) =
          { Blocking.serve lfd buf false itsB with
            trace := [.stop false, .accept lfd itB.cfd EINTR, .stop false] ++
              (Blocking.serve lfd buf false itsB).trace }) ∧
      (itB.errno ≠ EINTR →
        Blocking.serve lfd buf g (itB :: itsB) =
          { Blocking.serve lfd buf (deliver itB.sigAcc false) itsB with
            trace := [.stop false, .accept lfd itB.cfd itB.errno, .log .perrorAccept] ++
              (Blocking.serve lfd buf (deliver itB.sigAcc false) itsB).trace }) ∧
      (∀ (b1 : List Byte) (g1 : Bool) (it2 : Blocking.Iter) (its2 : List Blocking.Iter),
        (deliver it2.sigTop g1 = false →
          (Blocking.serve lfd b1 g1 (it2 :: its2)).trace.take 2 =
            [.stop false, .accept lfd it2.cfd it2.errno]) ∧
        (deliver it2.sigTop g1 = true →
          Blocking.serve lfd b1 g1 (it2 :: its2) =
            ⟨.returned 0, true, [.stop true, .close lfd, .log .bye]⟩))) := by
  refine ⟨⟨?_, ?_, ?_, ?_⟩, ⟨?_, ?_, ?_, ?_⟩⟩
  · exact fun he hs => Forked.serve_intr_stop lfd g itF itsF hgF hcF he hs
  · exact fun he hs => Forked.serve_intr_retry lfd g itF itsF hgF hcF he hs
  · exact fun he => Forked.serve_fail lfd g itF itsF hgF hcF he
  · intro g1 it2 its2
    refine ⟨fun h => ?_, fun h => Forked.serve_stop lfd g1 it2 its2 h⟩
    obtain ⟨rest, hr⟩ := Forked.serve_begins lfd g1 it2 its2 h
    rw [hr]
    rfl
  · exact fun he hs => Blocking.inline_serve_intr_stop lfd buf g itB itsB hgB hcB he hs
  · exact fun he hs => Blocking.inline_serve_intr_retry lfd buf g itB itsB hgB hcB he hs
  · exact fun he => Blocking.inline_serve_fail lfd buf g itB itsB hgB hcB he
  · intro b1 g1 it2 its2
    refine ⟨fun h => ?_, fun h => Blocking.inline_serve_stop lfd b1 g1 it2 its2 h⟩
    obtain ⟨rest, hr⟩ := Blocking.inline_serve_begins lfd b1 g1 it2 its2 h
    rw [hr]
    rfl

theorem accept_failure_goes_back_to_the_loop_condition_witness :
    Forked.serve 3 false [⟨false, true, -1, 4, 0, [], [], []⟩,
        ⟨false, false, 5, 0, 77, [], [], []⟩] =
      ⟨.returned 0, true, [.stop false, .accept 3 (-1) EINTR, .stop true, .close 3,
        .log .bye]⟩ ∧
    Blocking.serve 3 [] false [⟨false, false, -1, 24, [], []⟩,
        ⟨false, false, -1, 4, [], []⟩] =
      { Blocking.serve 3 [] (deliver false false) [⟨false, false, -1, 4, [], []⟩] with
        trace := [.stop false, .accept 3 (-1) 24, .log .perrorAccept] ++
          (Blocking.serve 3 [] (deliver false false) [⟨false, false, -1, 4, [], []⟩]).trace } :=
  ⟨(accept_failure_goes_back_to_the_loop_condition 3 [] false
      ⟨false, true, -1, 4, 0, [], [], []⟩ [⟨false, false, 5, 0, 77, [], [], []⟩]
      ⟨false, false, -1, 24, [], []⟩ [⟨false, false, -1, 4, [], []⟩]
      (by decide) (by decide) (by decide) (by decide)).1.1 (by decide) (by decide),
    (accept_failure_goes_back_to_the_loop_condition 3 [] false
      ⟨false, true, -1, 4, 0, [], [], []⟩ [⟨false, false, 5, 0, 77, [], [], []⟩]
      ⟨false, false, -1, 24, [], []⟩ [⟨false, false, -1, 4, [], []⟩]
      (by decide) (by decide) (by decide) (by decide)).2.2.2.1 (by decide)⟩

/-- C5: in the forked server, when `fork` fails for an accepted connection, the
supervisor prints a diagnostic, closes that connection, and the rest of its run
is the accept loop started afresh on what follows: it does not exit.  In this
iteration the connection is closed exactly once and no `read` or `write` is
performed. -/
theorem fork_failure_closes_the_connection (lfd : Int) (g : Bool) (it : Forked.Iter)
    (its : List Forked.Iter) (hg : deliver it.sigTop g = false) (hc : 0 ≤ it.cfd)
    (hp : it.pid < 0) :
    Forked.serve lfd g (it :: its) =
      { Forked.serve lfd (deliver it.sigAcc false) its with
        trace := [.stop false, .accept lfd it.cfd it.errno, .log .clientConnected,
            .fork it.pid, .log .perrorFork, .close it.cfd] ++
          (Forked.serve lfd (deliver it.sigAcc false) its).trace } ∧
    (Forked.serve lfd g (it :: its)).status =
      (Forked.serve lfd (deliver it.sigAcc false) its).status ∧
    List.countP Ev.isClose [.stop false, .accept lfd it.cfd it.errno, .log .clientConnected,
      .fork it.pid, .log .perrorFork, .close it.cfd] = 1 ∧
    List.countP Ev.isTransfer [.stop false, .accept lfd it.cfd it.errno, .log .clientConnected,
      .fork it.pid, .log .perrorFork, .close it.cfd] = 0 := by
  refine ⟨Forked.serve_fork_fail lfd g it its hg hc hp, ?_, by simp [Ev.isClose],
    by simp [Ev.isTransfer]⟩
  rw [Forked.serve_fork_fail lfd g it its hg hc hp]

theorem fork_failure_closes_the_connection_witness :
    (Forked.serve 3 false [⟨false, false, 5, 0, -1, [], [], []⟩,
        ⟨false, false, 6, 0, 77, [], [], []⟩]).trace =
      [.stop false, .accept 3 5 0, .log .clientConnected, .fork (-1), .log .perrorFork,
        .close 5, .stop false, .accept 3 6 0, .log .clientConnected, .fork 77, .close 6,
        .stop false] := by
  have h := (fork_failure_closes_the_connection 3 false ⟨false, false, 5, 0, -1, [], [], []⟩
    [⟨false, false, 6, 0, 77, [], [], []⟩] (by decide) (by decide) (by decide)).1
  rw [h]
  decide

/-- C6: in the forked server, after a successful `fork` the supervisor performs a
single `close` on the accepted connection and the rest of its run is the accept
loop started afresh.  In every run, whatever the script, the process performs no
`read` and no `write` as long as it is the supervisor (up to the first `fork`
that returns `0`); once it is a worker it first closes the listening endpoint,
never calls `accept`, and when it leaves it does so through `_exit(0)`, which is
its last action. -/
theorem supervisor_hands_off_and_worker_never_accepts (lfd : Int) (g : Bool)
    (it : Forked.Iter) (its : List Forked.Iter) (hg : deliver it.sigTop g = false)
    (hc : 0 ≤ it.cfd) (hp : 0 < it.pid) :
    Forked.serve lfd g (it :: its) =
      { Forked.serve lfd (deliver it.sigAcc false) its with
        trace := [.stop false, .accept lfd it.cfd it.errno, .log .clientConnected,
            .fork it.pid, .close it.cfd] ++
          (Forked.serve lfd (deliver it.sigAcc false) its).trace } ∧
    (∀ (g0 : Bool) (script : List Forked.Iter),
      (∀ e ∈ supervisorPart (Forked.serve lfd g0 script).trace, e.isTransfer = false) ∧
      (∀ e ∈ workerPart (Forked.serve lfd g0 script).trace, e.isAccept = false) ∧
      (Ev.fork 0 ∈ (Forked.serve lfd g0 script).trace →
        (workerPart (Forked.serve lfd g0 script).trace).head? = some (.close lfd)) ∧
      (∀ c, (Forked.serve lfd g0 script).status = .exited c →
        c = 0 ∧ (Forked.serve lfd g0 script).trace.getLast? = some (.exited 0))) := by
  refine ⟨Forked.serve_parent lfd g it its hg hc hp, ?_⟩
  intro g0 script
  obtain ⟨r1, r2, r3, r4⟩ := Forked.serve_roles lfd script g0
  refine ⟨r1, ?_, r3, r4⟩
  intro e he
  cases hl : e.loopOnly
  · exact loopOnly_isAccept e hl
  · rw [r2 e he hl]
    rfl

theorem supervisor_hands_off_and_worker_never_accepts_witness :
    (Forked.serve 3 false [⟨false, false, 5, 0, 77, [], [], []⟩,
        ⟨false, false, 6, 0, 0, [], [⟨false, .ok [1]⟩, ⟨false, .ok []⟩],
          [⟨false, .ok 1⟩]⟩]).trace =
      [.stop false, .accept 3 5 0, .log .clientConnected, .fork 77, .close 5,
        .stop false, .accept 3 6 0, .log .clientConnected, .fork 0, .close 3,
        .read 6 4096 (.ok [1]), .write 6 0 1 [1] (.ok 1), .read 6 4096 (.ok []),
        .log .clientDisconnectedFd, .close 6, .exited 0] := by
  have h := (supervisor_hands_off_and_worker_never_accepts 3 false
    ⟨false, false, 5, 0, 77, [], [], []⟩
    [⟨false, false, 6, 0, 0, [], [⟨false, .ok [1]⟩, ⟨false, .ok []⟩], [⟨false, .ok 1⟩]⟩]
    (by decide) (by decide) (by decide)).1
  rw [h]
  decide

/-- C9, as stated, fails: in both servers the loop condition `while (!g_stop)`
reads the flag at the top of every iteration.  In the runs below the flag is
read at loop entry, after a connection was served (blocking server) or handed
off (forked server), and after an `accept` that failed with `EMFILE`: none of
these reads follows an interrupted blocking call. -/
theorem flag_is_read_at_the_top_of_every_iteration :
    ((Blocking.serve 3 [] false [⟨false, false, 5, 0, [⟨false, .ok []⟩], []⟩,
        ⟨false, false, -1, 24, [], []⟩]).trace =
      [.stop false, .accept 3 5 0, .log .clientConnected, .read 5 4096 (.ok []),
        .close 5, .log .clientDisconnected, .stop false, .accept 3 (-1) 24,
        .log .perrorAccept, .stop false] ∧
      stopsFollowInterrupts none (Blocking.serve 3 [] false
        [⟨false, false, 5, 0, [⟨false, .ok []⟩], []⟩,
          ⟨false, false, -1, 24, [], []⟩]).trace = false) ∧
    ((Forked.serve 3 false [⟨false, false, 5, 0, 77, [], [], []⟩,
        ⟨false, false, -1, 24, 0, [], [], []⟩]).trace =
      [.stop false, .accept 3 5 0, .log .clientConnected, .fork 77, .close 5,
        .stop false, .accept 3 (-1) 24, .log .perrorAccept, .stop false] ∧
      stopsFollowInterrupts none (Forked.serve 3 false
        [⟨false, false, 5, 0, 77, [], [], []⟩,
          ⟨false, false, -1, 24, 0, [], [], []⟩]).trace = false) := by
  decide

/-- C9, amended: in every execution of either server's accept loop the shutdown
flag is read at two points only.  One is the loop condition at the top of an
iteration: at loop entry, after the check that followed an interrupted `accept`
found the flag unset, after the diagnostic of a failed `accept`, after the
`close` of a connection, or after the diagnostic that ends a served connection;
this read is followed at once by `close` of the listening endpoint when the flag
is set and by a call of `accept` when it is unset.  The other is the check
immediately after an `accept` that returned because it was interrupted; it is
followed by `close` of the listening endpoint when the flag is set and by the
loop condition when it is unset.  The flag is never read while a connection is
being served. -/
theorem flag_is_read_at_two_points_only (lfd : Int) (buf : List Byte) (g : Bool)
    (scriptF : List Forked.Iter) (scriptB : List Blocking.Iter) :
    flagDiscipline lfd none (Forked.serve lfd g scriptF).trace = true ∧
    flagDiscipline lfd none (Blocking.serve lfd buf g scriptB).trace = true :=
  ⟨Forked.serve_flagDiscipline lfd scriptF g none rfl,
    Blocking.inline_serve_flagDiscipline lfd scriptB buf g none rfl⟩

/-! ## Reaping: claim -/

/-- C7: one run of `on_sigchld` on a table with `k` terminated workers calls
`waitpid(-1, NULL, WNOHANG)` exactly `k + 1` times: the first `k` calls reap the
terminated workers, one each, the last one returns `0` (workers still running)
or `-1` (no worker left); the running workers stay in the table, no terminated
worker is left, and the handler is never put to sleep.  Any amount of fuel above
`k` gives this result.  Hence, after any sequence of worker creations,
terminations and runs of the handler, a run of the handler leaves no terminated
worker behind, however many terminations it has to make up for. -/
theorem on_sigchld_reaps_every_terminated_worker (t : ProcTable) (evs : List PEv)
    (hpid : ∀ c ∈ t, 0 < c.pid) (hevs : ∀ e ∈ evs, e.badSpawn = false) :
    on_sigchld t = some ⟨t.filter (fun c => !c.zombie),
      (t.filter (fun c => c.zombie)).map (fun c => (c.pid : Int)) ++ [lastRet t],
      false⟩ ∧
    (∀ fuel : Nat, (t.filter (fun c => c.zombie)).length < fuel →
      on_sigchld_loop fuel t = on_sigchld t) ∧
    (∃ t1, runProc t (evs ++ [.sigchld]) = some t1 ∧ ∀ c ∈ t1, c.zombie = false) := by
  refine ⟨on_sigchld_total t hpid, ?_, ?_⟩
  · intro fuel hf
    rw [on_sigchld_loop_spec fuel t hpid hf, on_sigchld_total t hpid]
  · obtain ⟨t1, h1, h2⟩ := runProc_total evs t hpid hevs
    have h3 := on_sigchld_total t1 h2
    refine ⟨t1.filter (fun c => !c.zombie), ?_, ?_⟩
    · rw [runProc_append, h1]
      simp [runProc, stepProc, h3]
    · intro c hc
      have := (List.mem_filter.mp hc).2
      simpa using this

theorem on_sigchld_reaps_every_terminated_worker_witness :
    on_sigchld [⟨3, true⟩, ⟨4, false⟩, ⟨5, true⟩] =
      some ⟨[⟨4, false⟩], [3, 5, 0], false⟩ ∧
    on_sigchld_loop 3 [⟨3, true⟩, ⟨4, false⟩, ⟨5, true⟩] =
      on_sigchld [⟨3, true⟩, ⟨4, false⟩, ⟨5, true⟩] ∧
    ∃ t1, runProc [⟨3, true⟩, ⟨4, false⟩, ⟨5, true⟩]
      ([.spawn 6, .terminate 4, .sigchld, .terminate 6] ++ [.sigchld]) = some t1 ∧
      ∀ c ∈ t1, c.zombie = false :=
  ⟨(on_sigchld_reaps_every_terminated_worker [⟨3, true⟩, ⟨4, false⟩, ⟨5, true⟩]
      [.spawn 6, .terminate 4, .sigchld, .terminate 6] (by decide) (by decide)).1,
    (on_sigchld_reaps_every_terminated_worker [⟨3, true⟩, ⟨4, false⟩, ⟨5, true⟩]
      [.spawn 6, .terminate 4, .sigchld, .terminate 6] (by decide) (by decide)).2.1 3
      (by decide),
    (on_sigchld_reaps_every_terminated_worker [⟨3, true⟩, ⟨4, false⟩, ⟨5, true⟩]
      [.spawn 6, .terminate 4, .sigchld, .terminate 6] (by decide) (by decide)).2.2⟩

end EchoLab
